import Mathlib

/-!
# Crowny rules engine: embedding of `open_spiel/games/crowny/crowny.{h,cc}`

The definitions below transcribe the C++ member functions of `CrownyState`
as pure functions over an explicit state record.

* C++ `int` / `Action` values are mathematical integers (`Int`).  The
  packing of an action id in `CheckerMovesToSpielMove`, whose value can leave
  the range of `int`, is reduced modulo `2^32` after every operation
  (`wrapInt32`); every other arithmetic expression that the theorems evaluate
  stays far below `2^31`.
* The `double` probabilities of the chance outcomes are binary64 values
  (`Double`), quotients being rounded to nearest; `Double.toRat` gives the
  exact value.  The returns, which are only 0, 1 and -1, are rationals.
* A call that aborts (`SPIEL_CHECK_*`, `SpielFatalError`) or has no defined
  result in C++ (reading `back()` of an empty vector, indexing a vector out
  of bounds, leaving a value-returning function without `return`) yields an
  error value of type `SpielError`.
* `std::vector` is `List`; `board_[r][c]` is a list of rows of stacks, the
  top of a stack being the last element.
-/

namespace Crowny

/-! ## Results and errors -/

/-- The ways a call can stop without a value. -/
inductive SpielError where
  /-- A `SPIEL_CHECK_*` assertion did not hold. -/
  | checkFailed
  /-- A direct call of `SpielFatalError`. -/
  | fatalError
  /-- The C++ standard gives the executed statement no meaning. -/
  | undefinedBehaviour
  /-- The bounded unrolling of a recursion was too short (never a C++ outcome). -/
  | outOfFuel
  deriving DecidableEq, Repr

deriving instance DecidableEq for Except

/-- Value-or-error result of a member function. -/
abbrev Result (α : Type) : Type := Except SpielError α

/-! ## Values of type `double`

The probabilities of the chance outcomes are IEEE 754 binary64 numbers.  A
finite value is kept as a pair of integers `m` and `e` standing for
`m * 2^e`; a quotient is rounded to the nearest such number, ties to the even
significand.  The sign of zero is not kept. -/

/-- A value of the C++ type `double`: `finite m e` is the number `m * 2^e`. -/
inductive Double where
  | finite (m : Int) (e : Int)
  | infinite (negative : Bool)
  | nan
  deriving DecidableEq, Repr

/-- Number of binary digits of `n`, for `fuel >= n`. -/
def bitLengthAux : Nat → Nat → Nat
  | 0, _ => 0
  | fuel + 1, n => if n = 0 then 0 else bitLengthAux fuel (n / 2) + 1

/-- Number of binary digits of `n`. -/
def bitLength (n : Nat) : Nat := bitLengthAux n n

/-- Rounding of the non-negative rational `n / d` (`d > 0`) to binary64:
the significand `m` and the exponent `e` of the nearest number `m * 2^e` with
`m < 2^53` and `e >= -1074`, ties going to the even significand.  An exponent
above 971 stands for a value beyond the largest finite `double`. -/
def roundNearestEven (n d : Nat) : Nat × Int :=
  if n = 0 then (0, 0)
  else
    let l0 : Int := (bitLength n : Int) - (bitLength d : Int)
    let l : Int := if n * 2 ^ (-l0).toNat < d * 2 ^ l0.toNat then l0 - 1 else l0
    let e : Int := max (l - 52) (-1074)
    let num := n * 2 ^ (-e).toNat
    let den := d * 2 ^ e.toNat
    let q := num / den
    let r := num % den
    let m := if 2 * r < den then q else if den < 2 * r then q + 1 else if q % 2 = 0 then q else q + 1
    if m = 0 then (0, 0) else if m = 2 ^ 53 then (2 ^ 52, e + 1) else (m, e)

/-- The `double` nearest to the rational `n / d` (`d > 0`) with the given sign. -/
def Double.ofRatio (negative : Bool) (n d : Nat) : Double :=
  let r := roundNearestEven n d
  if r.2 > 971 then .infinite negative
  else .finite (if negative then -(r.1 : Int) else r.1) r.2

/-- Conversion of an integer to `double`. -/
def Double.ofInt (n : Int) : Double := Double.ofRatio (decide (n < 0)) n.natAbs 1

/-- The operator `/` on `double`. -/
def Double.div (x y : Double) : Double :=
  match x, y with
  | .nan, _ => .nan
  | _, .nan => .nan
  | .infinite _, .infinite _ => .nan
  | .infinite a, .finite m _ => .infinite (a != decide (m < 0))
  | .finite _ _, .infinite _ => .finite 0 0
  | .finite m1 e1, .finite m2 e2 =>
    if m2 = 0 then (if m1 = 0 then .nan else .infinite (decide (m1 < 0)))
    else
      Double.ofRatio (decide (m1 < 0) != decide (m2 < 0))
        (m1.natAbs * 2 ^ (e1 - e2).toNat) (m2.natAbs * 2 ^ (e2 - e1).toNat)

instance : Div Double := ⟨Double.div⟩

/-- A literal such as `1.0` or `18` used as a `double`. -/
instance (n : Nat) : OfNat Double n := ⟨Double.ofInt n⟩

/-- The exact value of a finite `double` as a rational number (0 for the
infinities and NaN). -/
def Double.toRat (x : Double) : ℚ :=
  match x with
  | .finite m e => m * 2 ^ e
  | _ => 0

/-! ## Constants (crowny.h, crowny.cc)

The framework types `Action` (a 64-bit integer) and `Player` (an `int`) are
both `Int` here. -/


def kNumPlayers : Int := 2
def kNumChanceOutcomes : Int := 21
def kNumPoints : Int := 24
def kNumDiceOutcomes : Int := 6
def kXPlayerId : Int := 0
def kOPlayerId : Int := 1
def kNumCheckersPerPlayer : Int := 15
def kScorePos : Int := 101
def kNumDistinctActions : Int := 1352
def kNumNonDoubleOutcomes : Int := 15

/-- Modelled from the spec: the player id that marks a chance node.  It is
declared in the framework header `open_spiel/spiel_utils.h`, which is not part
of the sources; the framework value is `-1`. -/
def kChancePlayerId : Int := -1

/-- Modelled from the spec: the player id reported in a terminal state.  It is
declared in the framework header `open_spiel/spiel_utils.h`, which is not part
of the sources; the framework value is `-4`. -/
def kTerminalPlayerId : Int := -4

/-- Table `kChanceOutcomes`; each probability is the `double` quotient
`1.0 / 18` or `1.0 / 36`. -/
def kChanceOutcomes : List (Int × Double) :=
  [(0, 1 / 18), (1, 1 / 18), (2, 1 / 18), (3, 1 / 18), (4, 1 / 18), (5, 1 / 18),
   (6, 1 / 18), (7, 1 / 18), (8, 1 / 18), (9, 1 / 18), (10, 1 / 18), (11, 1 / 18),
   (12, 1 / 18), (13, 1 / 18), (14, 1 / 18), (15, 1 / 36), (16, 1 / 36),
   (17, 1 / 36), (18, 1 / 36), (19, 1 / 36), (20, 1 / 36)]

def kChanceOutcomeValues : List (List Int) :=
  [[1, 2], [1, 3], [1, 4], [1, 5], [1, 6], [2, 3], [2, 4],
   [2, 5], [2, 6], [3, 4], [3, 5], [3, 6], [4, 5], [4, 6],
   [5, 6], [1, 1], [2, 2], [3, 3], [4, 4], [5, 5], [6, 6]]

/-! ## Data model (crowny.h) -/

inductive ScoringType where
  | kWinLossScoring
  | kFullScoring
  deriving DecidableEq, Repr

inductive PieceType where
  | ENUM_RED
  | ENUM_BLUE
  deriving DecidableEq, Repr

/-- Class `Piece`.  The board stores `Piece` by value, so a `Pawn`, `Archer`
or `King` pushed onto a stack keeps only the base-class member `type_`. -/
structure Piece where
  type_ : PieceType
  deriving DecidableEq, Repr

def Pawn (t : PieceType) : Piece := ⟨t⟩
def Archer (t : PieceType) : Piece := ⟨t⟩
def King (t : PieceType) : Piece := ⟨t⟩

/-- A cell `std::pair<int, int>`: `(first, second)` = `(row, col)`. -/
abbrev Pos : Type := Int × Int

/-- Struct `CheckerMove`; the members `from` and `to` are spelled `from_` and `to_`. -/
structure CheckerMove where
  from_ : Pos
  to_ : Pos
  deriving DecidableEq, Repr

abbrev Board : Type := List (List (List Piece))

/-- Data members of `CrownyState`.  `scores_` is built as `{0, 0}` and only
ever indexed at `kXPlayerId` and `kOPlayerId`; it is kept as the pair
`(scores_[0], scores_[1])`. -/
structure CrownyState where
  scoring_type_ : ScoringType
  cur_player_ : Int
  prev_player_ : Int
  turns_ : Int
  x_turns_ : Int
  o_turns_ : Int
  double_turn_ : Bool
  dice_ : List Int
  bar_ : List Int
  scores_ : Int × Int
  board_ : Board
  deriving DecidableEq, Repr

/-! ## Board access -/

/-- The expression `board_[pos.first][pos.second]` read as a value. -/
def stackAt (board : Board) (pos : Pos) : Result (List Piece) :=
  if pos.1 < 0 ∨ pos.2 < 0 then .error .undefinedBehaviour
  else
    match board[pos.1.toNat]? with
    | none => .error .undefinedBehaviour
    | some row =>
      match row[pos.2.toNat]? with
      | none => .error .undefinedBehaviour
      | some st => .ok st

/-- The assignment `board_[pos.first][pos.second] = st` at a cell that exists. -/
def setStack (board : Board) (pos : Pos) (st : List Piece) : Board :=
  board.set pos.1.toNat ((board.getD pos.1.toNat []).set pos.2.toNat st)

/-- The statement `board_[row][col].emplace_back(p)` of `SetupInitialBoard`. -/
def emplace_back (board : Board) (cell : Nat × Nat) (p : Piece) : Board :=
  board.set cell.1 ((board.getD cell.1 []).set cell.2 (((board.getD cell.1 []).getD cell.2 []) ++ [p]))

/-- Member function `CrownyState::SetupInitialBoard`. -/
def SetupInitialBoard (board : Board) : Board :=
  let n := board.length
  let b1 := ((List.range 3).map (fun i => n - 3 + i)).foldl
    (fun b row => (List.range 3).foldl (fun b col => emplace_back b (row, col) (Pawn .ENUM_RED)) b) board
  let b2 := [(8, 0), (9, 0), (10, 0), (9, 1), (10, 1), (10, 2)].foldl
    (fun b cell => emplace_back b cell (Pawn .ENUM_RED)) b1
  let b3 := [(9, 0), (10, 0), (9, 1), (10, 1)].foldl
    (fun b cell => emplace_back b cell (Archer .ENUM_RED)) b2
  let b4 := emplace_back b3 (10, 0) (King .ENUM_RED)
  let b5 := (List.range 3).foldl
    (fun b row => ((List.range 3).map (fun i => n - 3 + i)).foldl
      (fun b col => emplace_back b (row, col) (Pawn .ENUM_BLUE)) b) b4
  let b6 := [(0, 10), (0, 9), (0, 8), (1, 9), (1, 10), (2, 10)].foldl
    (fun b cell => emplace_back b cell (Pawn .ENUM_BLUE)) b5
  let b7 := [(0, 9), (0, 10), (1, 9), (1, 10)].foldl
    (fun b cell => emplace_back b cell (Archer .ENUM_BLUE)) b6
  emplace_back b7 (0, 10) (King .ENUM_BLUE)

/-- Constructor `CrownyState::CrownyState(game, scoring_type)`. -/
def CrownyState.init (scoring_type : ScoringType) : CrownyState :=
  { scoring_type_ := scoring_type
    cur_player_ := kChancePlayerId
    prev_player_ := kChancePlayerId
    turns_ := -1
    x_turns_ := 0
    o_turns_ := 0
    double_turn_ := false
    dice_ := []
    bar_ := []
    scores_ := (0, 0)
    board_ := SetupInitialBoard (List.replicate 11 (List.replicate 11 [])) }

/-- Member function `CrownyState::board(pos)`. -/
def board (s : CrownyState) (pos : Pos) : Result (List Piece) :=
  if ¬ (pos.1 ≥ 0) then .error .checkFailed
  else if ¬ (pos.2 ≥ 0) then .error .checkFailed
  else stackAt s.board_ pos

/-! ## Turn bookkeeping -/

/-- Member function `CrownyGame::NumCheckersPerPlayer`, reached through `NumCheckersPerPlayer(game)`. -/
def NumCheckersPerPlayer : Int := kNumCheckersPerPlayer

/-- Member function `CrownyState::IsTerminal`. -/
def IsTerminal (s : CrownyState) : Bool :=
  s.scores_.1 == NumCheckersPerPlayer || s.scores_.2 == NumCheckersPerPlayer

/-- Member function `CrownyState::CurrentPlayer`. -/
def CurrentPlayer (s : CrownyState) : Int :=
  if IsTerminal s then kTerminalPlayerId else s.cur_player_

/-- Modelled from the spec: `State::IsChanceNode` of the framework base
class (`open_spiel/spiel.h`, not part of the sources): the state is a chance
node when the current player is the chance player. -/
def IsChanceNode (s : CrownyState) : Bool :=
  CurrentPlayer s == kChancePlayerId

/-- Member function `CrownyState::Opponent`. -/
def Opponent (player : Int) : Int := 1 - player

/-- Member function `CrownyState::RollDice`. -/
def RollDice (s : CrownyState) (outcome : Int) : Result CrownyState :=
  if outcome < 0 then .error .undefinedBehaviour
  else
    match kChanceOutcomeValues[outcome.toNat]? with
    | none => .error .undefinedBehaviour
    | some v =>
      match v[0]?, v[1]? with
      | some a, some b => .ok { s with dice_ := s.dice_ ++ [a] ++ [b] }
      | _, _ => .error .undefinedBehaviour

/-- Member function `CrownyState::DiceValue`. -/
def DiceValue (s : CrownyState) (i : Int) : Result Int :=
  if ¬ (i ≥ 0) then .error .checkFailed
  else if ¬ (i < s.dice_.length) then .error .checkFailed
  else
    let d := s.dice_.getD i.toNat 0
    if d ≥ 1 ∧ d ≤ 6 then .ok d
    else if d ≥ 7 ∧ d ≤ 12 then .ok (d - 6)
    else .error .fatalError

/-- Member function `CrownyState::UsableDiceOutcome`. -/
def UsableDiceOutcome (outcome : Int) : Bool :=
  decide (outcome ≥ 1 ∧ outcome ≤ 6)

/-- Member function `CrownyState::GetDistance`. -/
def GetDistance (from_ to_ : Pos) : Result Int :=
  if from_.1 = kScorePos then .error .checkFailed
  else if from_.2 = kScorePos then .error .checkFailed
  else if to_.1 = kScorePos then .error .checkFailed
  else if to_.2 = kScorePos then .error .checkFailed
  else .ok (max |to_.2 - from_.2| |to_.1 - from_.1|)

/-- Member function `CrownyState::IsOff`. -/
def IsOff (s : CrownyState) (pos : Pos) : Bool :=
  decide (pos.1 < 0 ∨ pos.1 ≥ s.board_.length ∨ pos.2 < 0 ∨ pos.2 ≥ s.board_.length)

/-- Member function `CrownyState::PositionFrom`: the body is `return to;`. -/
def PositionFrom (_player : Int) (_from : Pos) (to_ : Pos) : Pos := to_

/-! ## Action encoding -/

/-- The value a 32-bit `int` holds after an arithmetic operation whose
mathematical result is `x`: the representative of `x` modulo `2^32` in
`[-2^31, 2^31)`, which is what the compiled code computes when a signed
operation overflows. -/
def wrapInt32 (x : Int) : Int := (x + 2147483648) % 4294967296 - 2147483648

/-- Member function `CrownyState::CheckerMovesToSpielMove`.  The digits and the packed
value are computed in `int`, one operation after the other, and the result
is widened to `Action` only afterwards. -/
def CheckerMovesToSpielMove (s : CrownyState) (moves : List CheckerMove) : Result Int :=
  match moves with
  | [m0, m1] => do
    let v0 ← DiceValue s 0
    let v1 ← DiceValue s 1
    let high_roll := if v0 ≥ v1 then v0 else v1
    let from1 := m0.from_
    let to1 := m0.to_
    let dig0 := wrapInt32 (wrapInt32 (from1.1 * 11) + from1.2)
    let dig1 := wrapInt32 (wrapInt32 (to1.1 * 11) + to1.2)
    let dist ← GetDistance from1 to1
    let _high_roll_first := decide (dist = high_roll)
    let from2 := m1.from_
    let to2 := m1.to_
    let dig2 := wrapInt32 (wrapInt32 (from2.1 * 11) + from2.2)
    let dig3 := wrapInt32 (wrapInt32 (to2.1 * 11) + to2.2)
    let move :=
      wrapInt32 (wrapInt32 (wrapInt32
        (wrapInt32 (wrapInt32 (wrapInt32 (dig3 * 121) * 121) * 121)
          + wrapInt32 (wrapInt32 (dig2 * 121) * 121))
        + wrapInt32 (dig1 * 121)) + dig0)
    if ¬ (move ≥ 0) then .error .checkFailed
    else if ¬ (move < kNumDistinctActions) then .error .checkFailed
    else .ok move
  | _ => .error .checkFailed

/-- One pass through the loop body of `SpielMoveToCheckerMoves`: the move
pushed onto `cmoves` and the remaining value of `spiel_move`.  `/` and `%`
are the truncating C++ operators. -/
def decodeStep (spiel_move : Int) : CheckerMove × Int :=
  let to_digit := spiel_move.tmod 121
  let spiel_move1 := spiel_move.tdiv 121
  let from_digit := spiel_move1.tmod 121
  let spiel_move2 := spiel_move1.tdiv 121
  (⟨(from_digit.tdiv 11, from_digit.tmod 11), (to_digit.tdiv 11, to_digit.tmod 11)⟩, spiel_move2)

/-- Member function `CrownyState::SpielMoveToCheckerMoves` (the loop runs for `i = 0, 1`). -/
def SpielMoveToCheckerMoves (_player : Int) (spiel_move : Int) : Result (List CheckerMove) :=
  if ¬ (spiel_move ≥ 0) then .error .checkFailed
  else if ¬ (spiel_move < kNumDistinctActions) then .error .checkFailed
  else
    let step0 := decodeStep spiel_move
    let step1 := decodeStep step0.2
    .ok [step0.1, step1.1]

/-! ## Applying and undoing a checker move -/

/-- The loop "Mark the die as used" of `ApplyCheckerMove`, with `dist` the
value of `GetDistance(move.from, move.to)`. -/
def markDieUsed (dice : List Int) (dist : Int) : Result (List Int) :=
  match dice[0]? with
  | none => .error .undefinedBehaviour
  | some d0 =>
    if d0 = dist then .ok (dice.set 0 (d0 + 6))
    else
      match dice[1]? with
      | none => .error .undefinedBehaviour
      | some d1 =>
        if d1 = dist then .ok (dice.set 1 (d1 + 6)) else .ok dice

/-- The loop "Mark the die as unused" of `UndoCheckerMove`. -/
def markDieUnused (dice : List Int) (dist : Int) : Result (List Int) :=
  match dice[0]? with
  | none => .error .undefinedBehaviour
  | some d0 =>
    if d0 = dist + 6 then .ok (dice.set 0 (d0 - 6))
    else
      match dice[1]? with
      | none => .error .undefinedBehaviour
      | some d1 =>
        if d1 = dist + 6 then .ok (dice.set 1 (d1 - 6)) else .ok dice

/-- Member function `CrownyState::ApplyCheckerMove`. -/
def ApplyCheckerMove (s : CrownyState) (player : Int) (move : CheckerMove) : Result CrownyState := do
  let src ← stackAt s.board_ move.from_
  match src.getLast? with
  | none => .error .undefinedBehaviour
  | some piece =>
    let board1 := setStack s.board_ move.from_ src.dropLast
    let _next_pos := PositionFrom player move.from_ move.to_
    let dist ← GetDistance move.from_ move.to_
    let dice1 ← markDieUsed s.dice_ dist
    let dst ← stackAt board1 move.to_
    .ok { s with dice_ := dice1, board_ := setStack board1 move.to_ (dst ++ [piece]) }

/-- Member function `CrownyState::UndoCheckerMove`. -/
def UndoCheckerMove (s : CrownyState) (_player : Int) (move : CheckerMove) : Result CrownyState := do
  let dst ← stackAt s.board_ move.to_
  match dst.getLast? with
  | none => .error .undefinedBehaviour
  | some piece =>
    let board1 := setStack s.board_ move.to_ dst.dropLast
    let dist ← GetDistance move.from_ move.to_
    let dice1 ← markDieUnused s.dice_ dist
    let src ← stackAt board1 move.from_
    .ok { s with dice_ := dice1, board_ := setStack board1 move.from_ (src ++ [piece]) }

/-! ## Applying and undoing an action -/

/-- Member function `CrownyState::DoApplyAction`. -/
def DoApplyAction (s : CrownyState) (move : Int) : Result CrownyState :=
  if IsChanceNode s then
    if s.turns_ = -1 then
      if ¬ s.dice_.isEmpty then .error .checkFailed
      else if move < kNumNonDoubleOutcomes then do
        let s1 ← RollDice { s with cur_player_ := kXPlayerId, prev_player_ := kXPlayerId } move
        .ok { s1 with turns_ := 0 }
      else do
        let s1 ← RollDice { s with cur_player_ := kOPlayerId, prev_player_ := kOPlayerId }
          (move - kNumNonDoubleOutcomes)
        .ok { s1 with turns_ := 0 }
    else
      if ¬ s.dice_.isEmpty then .error .checkFailed
      else do
        let s1 ← RollDice s move
        .ok { s1 with cur_player_ := Opponent s1.prev_player_ }
  else do
    let moves ← SpielMoveToCheckerMoves s.cur_player_ move
    match moves[0]?, moves[1]? with
    | some m0, some m1 =>
      let s1 ← ApplyCheckerMove s s.cur_player_ m0
      let s2 ← ApplyCheckerMove s1 s1.cur_player_ m1
      .ok { s2 with prev_player_ := s2.cur_player_ }
    | _, _ => .error .undefinedBehaviour

/-- Member function `CrownyState::UndoAction`: the whole body is commented out, the call
returns with the state untouched. -/
def UndoAction (s : CrownyState) (_player : Int) (_action : Int) : CrownyState := s

/-! ## Legal moves -/

/-- Member function `CrownyState::LegalCheckerMoves`: the whole body is commented out, the
function ends without a `return` statement. -/
def LegalCheckerMoves (_s : CrownyState) (_player : Int) : Result (List CheckerMove) :=
  .error .undefinedBehaviour

/-- The call `movelist->insert(moveseq)` on the `std::set` of sequences, kept
as a duplicate-free list. -/
def movelistInsert (movelist : List (List CheckerMove)) (moveseq : List CheckerMove) :
    List (List CheckerMove) :=
  if moveseq ∈ movelist then movelist else movelist ++ [moveseq]

/-- Member function `CrownyState::RecLegalMoves`, unrolled to the recursion depth `fuel`.
The triple returned holds the state after the call, the move list and the
`int` result. -/
def RecLegalMoves : Nat → CrownyState → List CheckerMove → List (List CheckerMove) →
    Result (CrownyState × List (List CheckerMove) × Int)
  | 0, _, _, _ => .error .outOfFuel
  | fuel + 1, s, moveseq, movelist =>
    if moveseq.length = 2 then .ok (s, movelistInsert movelist moveseq, moveseq.length)
    else do
      let moves_here ← LegalCheckerMoves s s.cur_player_
      if moves_here.isEmpty then .ok (s, movelistInsert movelist moveseq, moveseq.length)
      else
        moves_here.foldlM
          (fun (acc : CrownyState × List (List CheckerMove) × Int) move => do
            let s1 ← ApplyCheckerMove acc.1 acc.1.cur_player_ move
            let r ← RecLegalMoves fuel s1 (moveseq ++ [move]) acc.2.1
            let s2 ← UndoCheckerMove r.1 r.1.cur_player_ move
            pure (s2, r.2.1, max r.2.2 acc.2.2))
          (s, movelist, -1)

/-- Member function `CrownyState::ProcessLegalMoves`: the whole body is commented out, the
function ends without a `return` statement. -/
def ProcessLegalMoves (_s : CrownyState) (_max_moves : Int)
    (_movelist : List (List CheckerMove)) : Result (List Int) :=
  .error .undefinedBehaviour

/-- Member function `CrownyState::ChanceOutcomes`. -/
def ChanceOutcomes (s : CrownyState) : Result (List (Int × Double)) :=
  if ¬ IsChanceNode s then .error .checkFailed
  else if s.turns_ = -1 then
    let num_outcomes := kNumNonDoubleOutcomes * 2
    let uniform_prob : Double := 1 / Double.ofInt num_outcomes
    .ok ((List.range num_outcomes.toNat).map (fun (action : Nat) => ((action : Int), uniform_prob)))
  else .ok kChanceOutcomes

/-- Modelled from the spec: `State::LegalChanceOutcomes` of the framework
base class (`open_spiel/spiel.h`, not part of the sources): the action ids of
`ChanceOutcomes()`. -/
def LegalChanceOutcomes (s : CrownyState) : Result (List Int) :=
  (ChanceOutcomes s).map (fun outcomes => outcomes.map Prod.fst)

/-- Member function `CrownyState::LegalActions`.  The search runs on a clone, so the state
returned by `RecLegalMoves` is dropped; depth 3 covers the sequences of
length 0, 1 and 2. -/
def LegalActions (s : CrownyState) : Result (List Int) :=
  if IsChanceNode s then LegalChanceOutcomes s
  else if IsTerminal s then .ok []
  else do
    let r ← RecLegalMoves 3 s [] []
    let movelist := r.2.1
    let max_moves := r.2.2
    if ¬ (max_moves ≥ 0) then .error .checkFailed
    else if ¬ (max_moves ≤ 2) then .error .checkFailed
    else
      let legal_actions ← ProcessLegalMoves s max_moves movelist
      .ok (legal_actions.insertionSort (fun a b => a ≤ b))

/-! ## Game result and declared sizes -/

/-- Member function `CrownyGame::MaxChanceOutcomes`. -/
def MaxChanceOutcomes : Int := 30

/-- Member function `CrownyGame::MaxUtility` (the `default` branch cannot be
reached with the two values of the enumeration). -/
def MaxUtility (scoring_type : ScoringType) : ℚ :=
  match scoring_type with
  | .kWinLossScoring => 1
  | .kFullScoring => 2

/-- Member function `CrownyState::Returns`; the `double` entries are kept as
exact rationals.  `finish` is the part after the winner is known. -/
def Returns (s : CrownyState) : List ℚ :=
  let finish (winner loser : Int) : List ℚ :=
    let util_mag : Int :=
      match s.scoring_type_ with
      | .kWinLossScoring => 1
      | .kFullScoring => 1
    let returns : List ℚ := List.replicate kNumPlayers.toNat 0
    (returns.set winner.toNat (util_mag : ℚ)).set loser.toNat (-(util_mag : ℚ))
  if s.scores_.1 = 15 then finish kXPlayerId kOPlayerId
  else if s.scores_.2 = 15 then finish kOPlayerId kXPlayerId
  else [0, 0]

/-! ## Execution in place

The member functions update the object they are called on.  The functions of
this section return the contents of the object at the moment the call
returns or stops, together with the error if it stopped: every write made
before the failing statement is kept. -/

/-- Contents of the object when a call ends, and the error if it did not return. -/
abbrev InPlace : Type := CrownyState × Option SpielError

/-- The value-or-error view of an in-place run. -/
def InPlace.toResult (r : InPlace) : Result CrownyState :=
  match r.2 with
  | none => .ok r.1
  | some e => .error e

/-- Member function `CrownyState::RollDice`, statement by statement. -/
def RollDiceInPlace (s : CrownyState) (outcome : Int) : InPlace :=
  if outcome < 0 then (s, some .undefinedBehaviour)
  else
    match kChanceOutcomeValues[outcome.toNat]? with
    | none => (s, some .undefinedBehaviour)
    | some v =>
      match v[0]? with
      | none => (s, some .undefinedBehaviour)
      | some a =>
        let s1 := { s with dice_ := s.dice_ ++ [a] }
        match v[1]? with
        | none => (s1, some .undefinedBehaviour)
        | some b => ({ s1 with dice_ := s1.dice_ ++ [b] }, none)

/-- Member function `CrownyState::ApplyCheckerMove`, statement by statement. -/
def ApplyCheckerMoveInPlace (s : CrownyState) (player : Int) (move : CheckerMove) : InPlace :=
  match stackAt s.board_ move.from_ with
  | .error e => (s, some e)
  | .ok src =>
    match src.getLast? with
    | none => (s, some .undefinedBehaviour)
    | some piece =>
      let s1 := { s with board_ := setStack s.board_ move.from_ src.dropLast }
      let _next_pos := PositionFrom player move.from_ move.to_
      match GetDistance move.from_ move.to_ with
      | .error e => (s1, some e)
      | .ok dist =>
        match markDieUsed s1.dice_ dist with
        | .error e => (s1, some e)
        | .ok dice1 =>
          let s2 := { s1 with dice_ := dice1 }
          match stackAt s2.board_ move.to_ with
          | .error e => (s2, some e)
          | .ok dst => ({ s2 with board_ := setStack s2.board_ move.to_ (dst ++ [piece]) }, none)

/-- Member function `CrownyState::DoApplyAction`, statement by statement. -/
def DoApplyActionInPlace (s : CrownyState) (move : Int) : InPlace :=
  if IsChanceNode s then
    if s.turns_ = -1 then
      if ¬ s.dice_.isEmpty then (s, some .checkFailed)
      else if move < kNumNonDoubleOutcomes then
        match RollDiceInPlace { s with cur_player_ := kXPlayerId, prev_player_ := kXPlayerId } move with
        | (s1, some e) => (s1, some e)
        | (s1, none) => ({ s1 with turns_ := 0 }, none)
      else
        match RollDiceInPlace { s with cur_player_ := kOPlayerId, prev_player_ := kOPlayerId }
            (move - kNumNonDoubleOutcomes) with
        | (s1, some e) => (s1, some e)
        | (s1, none) => ({ s1 with turns_ := 0 }, none)
    else
      if ¬ s.dice_.isEmpty then (s, some .checkFailed)
      else
        match RollDiceInPlace s move with
        | (s1, some e) => (s1, some e)
        | (s1, none) => ({ s1 with cur_player_ := Opponent s1.prev_player_ }, none)
  else
    match SpielMoveToCheckerMoves s.cur_player_ move with
    | .error e => (s, some e)
    | .ok moves =>
      match moves[0]? with
      | none => (s, some .undefinedBehaviour)
      | some m0 =>
        match ApplyCheckerMoveInPlace s s.cur_player_ m0 with
        | (s1, some e) => (s1, some e)
        | (s1, none) =>
          match moves[1]? with
          | none => (s1, some .undefinedBehaviour)
          | some m1 =>
            match ApplyCheckerMoveInPlace s1 s1.cur_player_ m1 with
            | (s2, some e) => (s2, some e)
            | (s2, none) => ({ s2 with prev_player_ := s2.cur_player_ }, none)

/-! ## Piece counts -/

/-- Number of pieces of side `t` in one stack. -/
def countStack (t : PieceType) (st : List Piece) : Nat :=
  st.countP (fun p => p.type_ == t)

/-- Number of pieces of side `t` on the whole board. -/
def piecesOnBoard (b : Board) (t : PieceType) : Nat :=
  (b.map (fun row => (row.map (countStack t)).sum)).sum

/-- The accessor `score(player)` for the player of side `t`: red is player
`kXPlayerId`, blue is player `kOPlayerId`. -/
def scoreOf (s : CrownyState) (t : PieceType) : Int :=
  match t with
  | .ENUM_RED => s.scores_.1
  | .ENUM_BLUE => s.scores_.2

/-- States reached from the constructed state by successful calls of
`DoApplyAction`, `ApplyCheckerMove` and `UndoCheckerMove`, in any order. -/
inductive Explored (st : ScoringType) : CrownyState → Prop where
  | init : Explored st (CrownyState.init st)
  | action (s s1 : CrownyState) (a : Int) :
      Explored st s → DoApplyAction s a = .ok s1 → Explored st s1
  | apply (s s1 : CrownyState) (player : Int) (m : CheckerMove) :
      Explored st s → ApplyCheckerMove s player m = .ok s1 → Explored st s1
  | undo (s s1 : CrownyState) (player : Int) (m : CheckerMove) :
      Explored st s → UndoCheckerMove s player m = .ok s1 → Explored st s1

/-- States reached from the constructed state by successful `DoApplyAction`
calls alone (chance outcomes and move actions). -/
inductive Reachable (st : ScoringType) : CrownyState → Prop where
  | init : Reachable st (CrownyState.init st)
  | step (s s1 : CrownyState) (a : Int) :
      Reachable st s → DoApplyAction s a = .ok s1 → Reachable st s1

/-- The other side. -/
def oppositeSide (t : PieceType) : PieceType :=
  match t with
  | .ENUM_RED => .ENUM_BLUE
  | .ENUM_BLUE => .ENUM_RED

/-- How a stored die value can differ after a move action: not at all, or by
one or two used-marks of 6. -/
def dieMarked (old new : Int) : Prop := new = old ∨ new = old + 6 ∨ new = old + 12

/-! ## Predicates and sample states used in the statements -/

/-- A cell of the 11 x 11 grid: `0 <= row, col < 11`. -/
def onBoard (p : Pos) : Prop := 0 ≤ p.1 ∧ p.1 < 11 ∧ 0 ≤ p.2 ∧ p.2 < 11

instance (p : Pos) : Decidable (onBoard p) := by
  unfold onBoard
  infer_instance

/-- A board of 11 rows of 11 stacks, as the constructor builds it. -/
def boardShape (b : Board) : Prop := b.length = 11 ∧ ∀ row ∈ b, row.length = 11

instance (b : Board) : Decidable (boardShape b) := by
  unfold boardShape
  infer_instance

/-- The state after the opening roll `0`: X (red) starts with the dice 1 and 2. -/
def redToMove : CrownyState :=
  { CrownyState.init .kWinLossScoring with
    cur_player_ := kXPlayerId, prev_player_ := kXPlayerId, turns_ := 0, dice_ := [1, 2] }

/-- The state after the opening roll `15`: O (blue) starts with the dice 1 and 2. -/
def blueToMove : CrownyState :=
  { CrownyState.init .kWinLossScoring with
    cur_player_ := kOPlayerId, prev_player_ := kOPlayerId, turns_ := 0, dice_ := [1, 2] }

/-- The state after the opening roll `14`: X (red) starts with the dice 5 and 6. -/
def redFiveSix : CrownyState :=
  { CrownyState.init .kWinLossScoring with
    cur_player_ := kXPlayerId, prev_player_ := kXPlayerId, turns_ := 0, dice_ := [5, 6] }

/-- The initial position with a double 3 on the dice, the first die already
marked used (stored as 9), red to move. -/
def doubleThreeOneUsed : CrownyState :=
  { CrownyState.init .kWinLossScoring with
    cur_player_ := kXPlayerId, prev_player_ := kOPlayerId, turns_ := 0, dice_ := [9, 3] }

/-- A chance node after the opening: no dice, X (red) moved last. -/
def awaitingRoll : CrownyState :=
  { CrownyState.init .kWinLossScoring with
    cur_player_ := kChancePlayerId, prev_player_ := kXPlayerId, turns_ := 1, x_turns_ := 1 }

/-- The indices of the normal-roll table whose two values are equal. -/
def isDoubleOutcome (i : Nat) : Bool :=
  match kChanceOutcomeValues[i]? with
  | some [a, b] => a == b
  | _ => false

/-- Number of dice of the state that `UsableDiceOutcome` accepts. -/
def usableCount (s : CrownyState) : Nat :=
  (s.dice_.filter UsableDiceOutcome).length

/-! ## Auxiliary facts about lists and the board -/

theorem list_set_of_getElem? {α : Type} (l : List α) (i : Nat) (a : α)
    (h : l[i]? = some a) : l.set i a = l := by
  apply List.ext_getElem?
  intro j
  rw [List.getElem?_set]
  by_cases hij : i = j
  · subst hij
    have hlt : i < l.length := by
      rcases Nat.lt_or_ge i l.length with hl | hl
      · exact hl
      · rw [List.getElem?_eq_none hl] at h
        cases h
    simp [hlt, h]
  · simp [hij]

theorem stackAt_ok_iff (b : Board) (p : Pos) (st : List Piece) :
    stackAt b p = .ok st ↔
      0 ≤ p.1 ∧ 0 ≤ p.2 ∧ ∃ row, b[p.1.toNat]? = some row ∧ row[p.2.toNat]? = some st := by
  unfold stackAt
  by_cases hneg : p.1 < 0 ∨ p.2 < 0
  · rw [if_pos hneg]
    constructor
    · intro h
      cases h
    · rintro ⟨h1, h2, _⟩
      omega
  · rw [if_neg hneg]
    have h1 : 0 ≤ p.1 := by omega
    have h2 : 0 ≤ p.2 := by omega
    cases hrow : b[p.1.toNat]? with
    | none => simp
    | some row =>
      cases hst : row[p.2.toNat]? with
      | none => simp [h1, h2, hst]
      | some st1 =>
        simp only [h1, h2, true_and, Option.some.injEq, exists_eq_left', hst]
        constructor
        · intro h
          cases h
          rfl
        · intro h
          rw [h]

theorem stackAt_setStack_same (b : Board) (p : Pos) (old v : List Piece)
    (h : stackAt b p = .ok old) : stackAt (setStack b p v) p = .ok v := by
  rw [stackAt_ok_iff] at h ⊢
  obtain ⟨h1, h2, row, hrow, hst⟩ := h
  refine ⟨h1, h2, row.set p.2.toNat v, ?_, ?_⟩
  · have hlt : p.1.toNat < b.length := by
      rcases Nat.lt_or_ge p.1.toNat b.length with hl | hl
      · exact hl
      · rw [List.getElem?_eq_none hl] at hrow
        cases hrow
    simp [setStack, List.getElem?_set, hlt, hrow]
  · have hlt : p.2.toNat < row.length := by
      rcases Nat.lt_or_ge p.2.toNat row.length with hl | hl
      · exact hl
      · rw [List.getElem?_eq_none hl] at hst
        cases hst
    simp [List.getElem?_set, hlt]

theorem stackAt_setStack_ne (b : Board) (p q : Pos) (v : List Piece)
    (hp1 : 0 ≤ p.1) (hp2 : 0 ≤ p.2) (hne : p ≠ q) :
    stackAt (setStack b p v) q = stackAt b q := by
  unfold stackAt
  by_cases hneg : q.1 < 0 ∨ q.2 < 0
  · simp [hneg]
  · rw [if_neg hneg, if_neg hneg]
    have hq1 : 0 ≤ q.1 := by omega
    have hq2 : 0 ≤ q.2 := by omega
    by_cases hrow : p.1.toNat = q.1.toNat
    · have hcol : p.2.toNat ≠ q.2.toNat := by
        intro hc
        apply hne
        have e1 : p.1 = q.1 := by omega
        have e2 : p.2 = q.2 := by omega
        exact Prod.ext e1 e2
      simp only [setStack, List.getElem?_set, hrow, if_true, List.getD_eq_getElem?_getD]
      cases hb : b[q.1.toNat]? with
      | none =>
        have hl : ¬ q.1.toNat < b.length := by
          intro hl
          rw [List.getElem?_eq_getElem hl] at hb
          cases hb
        simp [hl]
      | some row =>
        have hl : q.1.toNat < b.length := by
          rcases Nat.lt_or_ge q.1.toNat b.length with hl | hl
          · exact hl
          · rw [List.getElem?_eq_none hl] at hb
            cases hb
        simp [hl, List.getElem?_set, hcol]
    · simp [setStack, List.getElem?_set, hrow]

theorem setStack_setStack (b : Board) (p : Pos) (v w : List Piece) :
    setStack (setStack b p v) p w = setStack b p w := by
  unfold setStack
  rw [List.set_set]
  congr 1
  simp only [List.getD_eq_getElem?_getD, List.getElem?_set, if_true]
  by_cases hl : p.1.toNat < b.length
  · simp [hl, List.set_set]
  · have hn : b[p.1.toNat]? = none := List.getElem?_eq_none (by omega)
    simp [hl, hn]

theorem setStack_self (b : Board) (p : Pos) (v : List Piece)
    (h : stackAt b p = .ok v) : setStack b p v = b := by
  rw [stackAt_ok_iff] at h
  obtain ⟨_, _, row, hrow, hst⟩ := h
  unfold setStack
  apply list_set_of_getElem?
  simp only [List.getD_eq_getElem?_getD, hrow, Option.getD_some]
  rw [list_set_of_getElem? row _ v hst]

theorem stackAt_of_onBoard (b : Board) (p : Pos) (hb : boardShape b) (hp : onBoard p) :
    ∃ st, stackAt b p = .ok st := by
  obtain ⟨h1, h2, h3, h4⟩ := hp
  obtain ⟨hlen, hrows⟩ := hb
  have hr : p.1.toNat < b.length := by omega
  have hrow : (b[p.1.toNat]) ∈ b := List.getElem_mem hr
  have hc : p.2.toNat < (b[p.1.toNat]).length := by
    rw [hrows _ hrow]
    omega
  refine ⟨(b[p.1.toNat])[p.2.toNat], ?_⟩
  rw [stackAt_ok_iff]
  exact ⟨h1, h3, b[p.1.toNat], List.getElem?_eq_getElem hr, List.getElem?_eq_getElem hc⟩

theorem stackAt_setStack_ok (b : Board) (p q : Pos) (old v dst : List Piece)
    (hp : stackAt b p = .ok old) (hq : stackAt b q = .ok dst) :
    ∃ dst1, stackAt (setStack b p v) q = .ok dst1 := by
  by_cases hpq : p = q
  · subst hpq
    exact ⟨v, stackAt_setStack_same b p old v hp⟩
  · have hp0 := (stackAt_ok_iff b p old).1 hp
    exact ⟨dst, by rw [stackAt_setStack_ne b p q v hp0.1 hp0.2.1 hpq, hq]⟩

/-! ## What `ApplyCheckerMove` and `UndoCheckerMove` compute -/

theorem ApplyCheckerMove_eq (s : CrownyState) (player : Int) (m : CheckerMove)
    (src dst1 : List Piece) (piece : Piece) (d : Int) (dice1 : List Int)
    (hsrc : stackAt s.board_ m.from_ = .ok src) (hlast : src.getLast? = some piece)
    (hd : GetDistance m.from_ m.to_ = .ok d) (hdice : markDieUsed s.dice_ d = .ok dice1)
    (hdst : stackAt (setStack s.board_ m.from_ src.dropLast) m.to_ = .ok dst1) :
    ApplyCheckerMove s player m =
      .ok { s with dice_ := dice1,
                   board_ := setStack (setStack s.board_ m.from_ src.dropLast) m.to_
                     (dst1 ++ [piece]) } := by
  simp [ApplyCheckerMove, hsrc, hlast, hd, hdice, hdst, bind, Except.bind]

theorem UndoCheckerMove_eq (s : CrownyState) (player : Int) (m : CheckerMove)
    (dst src1 : List Piece) (piece : Piece) (d : Int) (dice1 : List Int)
    (hdst : stackAt s.board_ m.to_ = .ok dst) (hlast : dst.getLast? = some piece)
    (hd : GetDistance m.from_ m.to_ = .ok d) (hdice : markDieUnused s.dice_ d = .ok dice1)
    (hsrc : stackAt (setStack s.board_ m.to_ dst.dropLast) m.from_ = .ok src1) :
    UndoCheckerMove s player m =
      .ok { s with dice_ := dice1,
                   board_ := setStack (setStack s.board_ m.to_ dst.dropLast) m.from_
                     (src1 ++ [piece]) } := by
  simp [UndoCheckerMove, hsrc, hlast, hd, hdice, hdst, bind, Except.bind]

/-- Popping the top of `p`, pushing it on `q`, popping it from `q` and pushing
it back on `p` leaves every stack of the board as it was. -/
theorem board_pop_push_inverse (b : Board) (p q : Pos) (src dst1 : List Piece) (piece : Piece)
    (hsrc : stackAt b p = .ok src) (hlast : src.getLast? = some piece)
    (hdst : stackAt (setStack b p src.dropLast) q = .ok dst1) :
    stackAt (setStack (setStack b p src.dropLast) q (dst1 ++ [piece])) q = .ok (dst1 ++ [piece]) ∧
    stackAt (setStack (setStack (setStack b p src.dropLast) q (dst1 ++ [piece])) q dst1) p
      = .ok src.dropLast ∧
    setStack (setStack (setStack (setStack b p src.dropLast) q (dst1 ++ [piece])) q dst1) p
      (src.dropLast ++ [piece]) = b := by
  have h1 : stackAt (setStack b p src.dropLast) p = .ok src.dropLast :=
    stackAt_setStack_same b p src _ hsrc
  have h3 : setStack (setStack (setStack b p src.dropLast) q (dst1 ++ [piece])) q dst1
      = setStack b p src.dropLast := by
    rw [setStack_setStack, setStack_self _ _ _ hdst]
  refine ⟨stackAt_setStack_same _ q dst1 _ hdst, ?_, ?_⟩
  · rw [h3]
    exact h1
  · rw [h3, setStack_setStack, List.dropLast_append_getLast? piece (by simp [hlast])]
    exact setStack_self b p src hsrc

/-- The two die loops on a pair of dice: marking the first die that stores
`d` and then unmarking the first die that stores `d + 6` gives the pair back
as soon as the second loop cannot stop at die 0 unless the first one did, and
cannot stop at die 1 unless the first one marked a die. -/
theorem dice_mark_unmark (a b d : Int) (h : a ≠ d + 6 ∧ (a = d ∨ b ≠ d + 6)) :
    ∃ dice1, markDieUsed [a, b] d = .ok dice1 ∧ markDieUnused dice1 d = .ok [a, b] := by
  obtain ⟨h1, h2⟩ := h
  by_cases ha : a = d
  · subst ha
    exact ⟨[a + 6, b], by simp [markDieUsed], by simp [markDieUnused]⟩
  · have hb6 : b ≠ d + 6 := by
      rcases h2 with h2 | h2
      · exact absurd h2 ha
      · exact h2
    by_cases hb : b = d
    · subst hb
      refine ⟨[a, b + 6], by simp [markDieUsed, ha], ?_⟩
      simp [markDieUnused, h1]
    · refine ⟨[a, b], by simp [markDieUsed, ha, hb], ?_⟩
      simp [markDieUnused, h1, hb6]

/-! ## What the encoder and the decoder compute -/

/-- The value `CheckerMovesToSpielMove` returns: a number of the action space
that agrees modulo `2^32` with the base-121 packing of the four digits. -/
theorem CheckerMovesToSpielMove_ok (s : CrownyState) (moves : List CheckerMove) (a : Int)
    (h : CheckerMovesToSpielMove s moves = .ok a) :
    ∃ m0 m1, moves = [m0, m1] ∧
      a % 4294967296
        = ((m1.to_.1 * 11 + m1.to_.2) * 121 * 121 * 121
            + (m1.from_.1 * 11 + m1.from_.2) * 121 * 121
            + (m0.to_.1 * 11 + m0.to_.2) * 121 + (m0.from_.1 * 11 + m0.from_.2)) % 4294967296 ∧
      0 ≤ a ∧ a < kNumDistinctActions := by
  match moves, h with
  | [m0, m1], h =>
    refine ⟨m0, m1, rfl, ?_⟩
    simp only [CheckerMovesToSpielMove, bind, Except.bind] at h
    cases h0 : DiceValue s 0 with
    | error e => simp [h0] at h
    | ok v0 =>
      cases h1 : DiceValue s 1 with
      | error e => simp [h0, h1] at h
      | ok v1 =>
        cases hd : GetDistance m0.from_ m0.to_ with
        | error e => simp [h0, h1, hd] at h
        | ok d =>
          simp only [h0, h1, hd] at h
          split_ifs at h with hneg hbig
          cases h
          refine ⟨?_, by omega, by omega⟩
          simp only [wrapInt32]
          omega
  | [], h => simp [CheckerMovesToSpielMove] at h
  | [_], h => simp [CheckerMovesToSpielMove] at h
  | _ :: _ :: _ :: _, h => simp [CheckerMovesToSpielMove] at h

/-- On the board the packed value is below `2^31`, so the id returned is the
base-121 packing itself. -/
theorem CheckerMovesToSpielMove_onBoard (s : CrownyState) (m0 m1 : CheckerMove) (a : Int)
    (h0f : onBoard m0.from_) (h0t : onBoard m0.to_) (h1f : onBoard m1.from_)
    (h1t : onBoard m1.to_) (h : CheckerMovesToSpielMove s [m0, m1] = .ok a) :
    a = (m1.to_.1 * 11 + m1.to_.2) * 121 * 121 * 121 + (m1.from_.1 * 11 + m1.from_.2) * 121 * 121
          + (m0.to_.1 * 11 + m0.to_.2) * 121 + (m0.from_.1 * 11 + m0.from_.2) ∧
    0 ≤ a ∧ a < kNumDistinctActions := by
  obtain ⟨n0, n1, hl, ha, hge, hlt⟩ := CheckerMovesToSpielMove_ok s [m0, m1] a h
  simp only [List.cons.injEq, and_true] at hl
  obtain ⟨rfl, rfl⟩ := hl
  refine ⟨?_, hge, hlt⟩
  simp only [onBoard] at h0f h0t h1f h1t
  simp only [kNumDistinctActions] at hlt
  omega

/-- Uniqueness of the last digit and of the rest in base 121. -/
theorem base121_unique (q r x y : Int) (hx : 0 ≤ x ∧ x < 121) (hy : 0 ≤ y ∧ y < 121)
    (h : q * 121 + x = r * 121 + y) : x = y ∧ q = r := by
  constructor <;> omega

/-- A cell of the grid is determined by its digit `row * 11 + col`. -/
theorem cell_of_digit (p q : Pos) (hp : onBoard p) (hq : onBoard q)
    (h : p.1 * 11 + p.2 = q.1 * 11 + q.2) : p = q := by
  obtain ⟨h1, h2, h3, h4⟩ := hp
  obtain ⟨h5, h6, h7, h8⟩ := hq
  exact Prod.ext (by omega) (by omega)

theorem digit_range (p : Pos) (hp : onBoard p) :
    0 ≤ p.1 * 11 + p.2 ∧ p.1 * 11 + p.2 < 121 := by
  obtain ⟨h1, h2, h3, h4⟩ := hp
  constructor <;> omega

theorem decodeStep_onBoard (x : Int) (hx : 0 ≤ x) :
    onBoard (decodeStep x).1.from_ ∧ onBoard (decodeStep x).1.to_ ∧ 0 ≤ (decodeStep x).2 ∧
    (decodeStep x).2 = x / 14641 := by
  have e1 : x.tmod 121 = x % 121 := Int.tmod_eq_emod hx (by norm_num)
  have e2 : x.tdiv 121 = x / 121 := Int.tdiv_eq_ediv hx (by norm_num)
  have hq : 0 ≤ x / 121 := by omega
  have e3 : (x / 121).tmod 121 = (x / 121) % 121 := Int.tmod_eq_emod hq (by norm_num)
  have e4 : (x / 121).tdiv 121 = (x / 121) / 121 := Int.tdiv_eq_ediv hq (by norm_num)
  have hm1 : 0 ≤ x % 121 := by omega
  have hm2 : 0 ≤ (x / 121) % 121 := by omega
  have e5 : (x % 121).tdiv 11 = (x % 121) / 11 := Int.tdiv_eq_ediv hm1 (by norm_num)
  have e6 : (x % 121).tmod 11 = (x % 121) % 11 := Int.tmod_eq_emod hm1 (by norm_num)
  have e7 : ((x / 121) % 121).tdiv 11 = ((x / 121) % 121) / 11 := Int.tdiv_eq_ediv hm2 (by norm_num)
  have e8 : ((x / 121) % 121).tmod 11 = ((x / 121) % 121) % 11 := Int.tmod_eq_emod hm2 (by norm_num)
  simp only [decodeStep, onBoard]
  rw [e1, e2, e3, e4, e5, e6, e7, e8]
  refine ⟨⟨?_, ?_, ?_, ?_⟩, ⟨?_, ?_, ?_, ?_⟩, ?_, ?_⟩ <;> omega

/-! ## Piece counts under the board updates -/

theorem sum_map_set {α : Type} (f : α → Nat) (l : List α) (i : Nat) (old x : α)
    (h : l[i]? = some old) : ((l.set i x).map f).sum + f old = (l.map f).sum + f x := by
  induction l generalizing i with
  | nil => simp at h
  | cons hd tl ih =>
    cases i with
    | zero =>
      simp only [List.getElem?_cons_zero, Option.some.injEq] at h
      subst h
      simp only [List.set_cons_zero, List.map_cons, List.sum_cons]
      omega
    | succ j =>
      simp only [List.getElem?_cons_succ] at h
      have := ih j h
      simp only [List.set_cons_succ, List.map_cons, List.sum_cons]
      omega

theorem piecesOnBoard_setStack (b : Board) (p : Pos) (old v : List Piece) (t : PieceType)
    (h : stackAt b p = .ok old) :
    piecesOnBoard (setStack b p v) t + countStack t old = piecesOnBoard b t + countStack t v := by
  rw [stackAt_ok_iff] at h
  obtain ⟨_, _, row, hrow, hst⟩ := h
  have hrows := sum_map_set (fun r : List (List Piece) => (r.map (countStack t)).sum) b
    p.1.toNat row (row.set p.2.toNat v) hrow
  have hcells := sum_map_set (countStack t) row p.2.toNat old v hst
  simp only [piecesOnBoard, setStack, List.getD_eq_getElem?_getD, hrow, Option.getD_some]
  simp only at hrows
  omega

/-- Moving the top piece of `p` onto `q` keeps the number of pieces of each side. -/
theorem piecesOnBoard_move (b : Board) (p q : Pos) (src dst1 : List Piece) (piece : Piece)
    (t : PieceType) (hsrc : stackAt b p = .ok src) (hlast : src.getLast? = some piece)
    (hdst : stackAt (setStack b p src.dropLast) q = .ok dst1) :
    piecesOnBoard (setStack (setStack b p src.dropLast) q (dst1 ++ [piece])) t
      = piecesOnBoard b t := by
  have h1 := piecesOnBoard_setStack b p src src.dropLast t hsrc
  have h2 := piecesOnBoard_setStack (setStack b p src.dropLast) q dst1 (dst1 ++ [piece]) t hdst
  have h3 : countStack t src = countStack t src.dropLast + countStack t [piece] := by
    have e : src.dropLast ++ [piece] = src :=
      List.dropLast_append_getLast? piece (by simp [hlast])
    rw [← e, List.dropLast_concat]
    simp [countStack, List.countP_append]
  have h4 : countStack t (dst1 ++ [piece]) = countStack t dst1 + countStack t [piece] := by
    simp [countStack, List.countP_append]
  omega

theorem ApplyCheckerMove_inv (s s1 : CrownyState) (player : Int) (m : CheckerMove)
    (h : ApplyCheckerMove s player m = .ok s1) :
    ∃ src piece d dice1 dst1, stackAt s.board_ m.from_ = .ok src ∧ src.getLast? = some piece ∧
      GetDistance m.from_ m.to_ = .ok d ∧ markDieUsed s.dice_ d = .ok dice1 ∧
      stackAt (setStack s.board_ m.from_ src.dropLast) m.to_ = .ok dst1 ∧
      s1 = { s with dice_ := dice1,
                    board_ := setStack (setStack s.board_ m.from_ src.dropLast) m.to_
                      (dst1 ++ [piece]) } := by
  simp only [ApplyCheckerMove, bind, Except.bind] at h
  cases hsrc : stackAt s.board_ m.from_ with
  | error e => simp [hsrc] at h
  | ok src =>
    cases hlast : src.getLast? with
    | none => simp [hsrc, hlast] at h
    | some piece =>
      cases hd : GetDistance m.from_ m.to_ with
      | error e => simp [hsrc, hlast, hd] at h
      | ok d =>
        cases hdice : markDieUsed s.dice_ d with
        | error e => simp [hsrc, hlast, hd, hdice] at h
        | ok dice1 =>
          cases hdst : stackAt (setStack s.board_ m.from_ src.dropLast) m.to_ with
          | error e => simp [hsrc, hlast, hd, hdice, hdst] at h
          | ok dst1 =>
            simp only [hsrc, hlast, hd, hdice, hdst, Except.ok.injEq] at h
            exact ⟨src, piece, d, dice1, dst1, rfl, hlast, rfl, hdice, hdst, h.symm⟩

theorem UndoCheckerMove_inv (s s1 : CrownyState) (player : Int) (m : CheckerMove)
    (h : UndoCheckerMove s player m = .ok s1) :
    ∃ dst piece d dice1 src1, stackAt s.board_ m.to_ = .ok dst ∧ dst.getLast? = some piece ∧
      GetDistance m.from_ m.to_ = .ok d ∧ markDieUnused s.dice_ d = .ok dice1 ∧
      stackAt (setStack s.board_ m.to_ dst.dropLast) m.from_ = .ok src1 ∧
      s1 = { s with dice_ := dice1,
                    board_ := setStack (setStack s.board_ m.to_ dst.dropLast) m.from_
                      (src1 ++ [piece]) } := by
  simp only [UndoCheckerMove, bind, Except.bind] at h
  cases hdst : stackAt s.board_ m.to_ with
  | error e => simp [hdst] at h
  | ok dst =>
    cases hlast : dst.getLast? with
    | none => simp [hdst, hlast] at h
    | some piece =>
      cases hd : GetDistance m.from_ m.to_ with
      | error e => simp [hdst, hlast, hd] at h
      | ok d =>
        cases hdice : markDieUnused s.dice_ d with
        | error e => simp [hdst, hlast, hd, hdice] at h
        | ok dice1 =>
          cases hsrc : stackAt (setStack s.board_ m.to_ dst.dropLast) m.from_ with
          | error e => simp [hdst, hlast, hd, hdice, hsrc] at h
          | ok src1 =>
            simp only [hdst, hlast, hd, hdice, hsrc, Except.ok.injEq] at h
            exact ⟨dst, piece, d, dice1, src1, rfl, hlast, rfl, hdice, hsrc, h.symm⟩

theorem ApplyCheckerMove_conserves (s s1 : CrownyState) (player : Int) (m : CheckerMove)
    (t : PieceType) (h : ApplyCheckerMove s player m = .ok s1) :
    piecesOnBoard s1.board_ t = piecesOnBoard s.board_ t ∧ s1.scores_ = s.scores_ ∧
      s1.cur_player_ = s.cur_player_ := by
  obtain ⟨src, piece, d, dice1, dst1, hsrc, hlast, -, -, hdst, rfl⟩ :=
    ApplyCheckerMove_inv s s1 player m h
  exact ⟨piecesOnBoard_move s.board_ m.from_ m.to_ src dst1 piece t hsrc hlast hdst, rfl, rfl⟩

theorem UndoCheckerMove_conserves (s s1 : CrownyState) (player : Int) (m : CheckerMove)
    (t : PieceType) (h : UndoCheckerMove s player m = .ok s1) :
    piecesOnBoard s1.board_ t = piecesOnBoard s.board_ t ∧ s1.scores_ = s.scores_ := by
  obtain ⟨dst, piece, d, dice1, src1, hdst, hlast, -, -, hsrc, rfl⟩ :=
    UndoCheckerMove_inv s s1 player m h
  exact ⟨piecesOnBoard_move s.board_ m.to_ m.from_ dst src1 piece t hdst hlast hsrc, rfl⟩

theorem RollDice_frame (s s1 : CrownyState) (outcome : Int) (h : RollDice s outcome = .ok s1) :
    s1.board_ = s.board_ ∧ s1.scores_ = s.scores_ := by
  unfold RollDice at h
  split_ifs at h
  split at h
  · cases h
  · split at h
    · cases h
      exact ⟨rfl, rfl⟩
    · cases h

theorem DoApplyAction_conserves (s s1 : CrownyState) (a : Int) (t : PieceType)
    (h : DoApplyAction s a = .ok s1) :
    piecesOnBoard s1.board_ t = piecesOnBoard s.board_ t ∧ s1.scores_ = s.scores_ := by
  unfold DoApplyAction at h
  split_ifs at h with hch hturn hdice hx hdice2
  · simp only [bind, Except.bind] at h
    split at h
    · cases h
    · rename_i r hr
      cases h
      obtain ⟨e1, e2⟩ := RollDice_frame _ _ _ hr
      exact ⟨congrArg (fun b => piecesOnBoard b t) e1, e2⟩
  · simp only [bind, Except.bind] at h
    split at h
    · cases h
    · rename_i r hr
      cases h
      obtain ⟨e1, e2⟩ := RollDice_frame _ _ _ hr
      exact ⟨congrArg (fun b => piecesOnBoard b t) e1, e2⟩
  · simp only [bind, Except.bind] at h
    split at h
    · cases h
    · rename_i r hr
      cases h
      obtain ⟨e1, e2⟩ := RollDice_frame _ _ _ hr
      exact ⟨congrArg (fun b => piecesOnBoard b t) e1, e2⟩
  · simp only [bind, Except.bind] at h
    split at h
    · cases h
    · rename_i moves hmoves
      split at h
      · rename_i m0 m1 hm0 hm1
        split at h
        · cases h
        · rename_i r1 hr1
          split at h
          · cases h
          · rename_i r2 hr2
            cases h
            obtain ⟨p1, q1, c1⟩ := ApplyCheckerMove_conserves _ _ _ _ t hr1
            obtain ⟨p2, q2, _⟩ := ApplyCheckerMove_conserves _ _ _ _ t hr2
            exact ⟨by simp only [p2, p1], by simp only [q2, q1]⟩
      · cases h

/-! ## The die loops on two dice, distances, and one apply / undo step -/

theorem markDieUsed_two (a b d : Int) :
    markDieUsed [a, b] d
      = .ok (if a = d then [a + 6, b] else if b = d then [a, b + 6] else [a, b]) := by
  by_cases ha : a = d
  · simp [markDieUsed, ha]
  · by_cases hb : b = d
    · simp [markDieUsed, ha, hb]
    · simp [markDieUsed, ha, hb]

theorem markDieUnused_two (a b d : Int) :
    markDieUnused [a, b] d
      = .ok (if a = d + 6 then [a - 6, b] else if b = d + 6 then [a, b - 6] else [a, b]) := by
  by_cases ha : a = d + 6
  · simp [markDieUnused, ha]
  · by_cases hb : b = d + 6
    · simp [markDieUnused, ha, hb]
    · simp [markDieUnused, ha, hb]

theorem GetDistance_onBoard (p q : Pos) (hp : onBoard p) (hq : onBoard q) :
    GetDistance p q = .ok (max |q.2 - p.2| |q.1 - p.1|) := by
  obtain ⟨h1, h2, h3, h4⟩ := hp
  obtain ⟨h5, h6, h7, h8⟩ := hq
  have e1 : p.1 ≠ kScorePos := by
    simp only [kScorePos]
    omega
  have e2 : p.2 ≠ kScorePos := by
    simp only [kScorePos]
    omega
  have e3 : q.1 ≠ kScorePos := by
    simp only [kScorePos]
    omega
  have e4 : q.2 ≠ kScorePos := by
    simp only [kScorePos]
    omega
  simp [GetDistance, e1, e2, e3, e4]

theorem onBoard_of_stackAt (b : Board) (p : Pos) (st : List Piece) (hb : boardShape b)
    (h : stackAt b p = .ok st) : onBoard p := by
  rw [stackAt_ok_iff] at h
  obtain ⟨h1, h2, row, hrow, hst⟩ := h
  obtain ⟨hlen, hrows⟩ := hb
  have hr : p.1.toNat < b.length := by
    rcases Nat.lt_or_ge p.1.toNat b.length with hl | hl
    · exact hl
    · rw [List.getElem?_eq_none hl] at hrow
      cases hrow
  have hmem : row ∈ b := by
    rw [List.getElem?_eq_getElem hr] at hrow
    cases hrow
    exact List.getElem_mem hr
  have hc : p.2.toNat < row.length := by
    rcases Nat.lt_or_ge p.2.toNat row.length with hl | hl
    · exact hl
    · rw [List.getElem?_eq_none hl] at hst
      cases hst
  rw [hrows row hmem] at hc
  exact ⟨h1, by omega, h2, by omega⟩

/-- What `ApplyCheckerMove` returns in a state with two dice. -/
theorem ApplyCheckerMove_two_dice (s : CrownyState) (player : Int) (m : CheckerMove)
    (a b d : Int) (src dst : List Piece)
    (hsrc : stackAt s.board_ m.from_ = .ok src) (hne : src ≠ [])
    (hdst : stackAt s.board_ m.to_ = .ok dst)
    (hdice : s.dice_ = [a, b]) (hd : GetDistance m.from_ m.to_ = .ok d) :
    ∃ piece dst1, src.getLast? = some piece ∧
      stackAt (setStack s.board_ m.from_ src.dropLast) m.to_ = .ok dst1 ∧
      ApplyCheckerMove s player m
        = .ok { s with
                dice_ := if a = d then [a + 6, b] else if b = d then [a, b + 6] else [a, b],
                board_ := setStack (setStack s.board_ m.from_ src.dropLast) m.to_
                  (dst1 ++ [piece]) } := by
  obtain ⟨dst1, hdst1⟩ :=
    stackAt_setStack_ok s.board_ m.from_ m.to_ src src.dropLast dst hsrc hdst
  obtain ⟨piece, hlast⟩ : ∃ piece, src.getLast? = some piece := by
    cases hl : src.getLast? with
    | none => exact absurd (List.getLast?_eq_none_iff.1 hl) hne
    | some piece => exact ⟨piece, rfl⟩
  refine ⟨piece, dst1, hlast, hdst1, ?_⟩
  exact ApplyCheckerMove_eq s player m src dst1 piece d _ hsrc hlast hd
    (by rw [hdice, markDieUsed_two]) hdst1

/-- What `UndoCheckerMove` returns after the move was applied, whatever two
dice `[x, y]` the state holds by then. -/
theorem UndoCheckerMove_after_apply (s : CrownyState) (player : Int) (m : CheckerMove)
    (x y d : Int) (src dst1 : List Piece) (piece : Piece)
    (hsrc : stackAt s.board_ m.from_ = .ok src) (hlast : src.getLast? = some piece)
    (hdst1 : stackAt (setStack s.board_ m.from_ src.dropLast) m.to_ = .ok dst1)
    (hd : GetDistance m.from_ m.to_ = .ok d) :
    UndoCheckerMove
        { s with dice_ := [x, y],
                 board_ := setStack (setStack s.board_ m.from_ src.dropLast) m.to_
                   (dst1 ++ [piece]) } player m
      = .ok { s with
              dice_ := if x = d + 6 then [x - 6, y] else if y = d + 6 then [x, y - 6]
                else [x, y] } := by
  obtain ⟨hb1, hb2, hb3⟩ :=
    board_pop_push_inverse s.board_ m.from_ m.to_ src dst1 piece hsrc hlast hdst1
  rw [UndoCheckerMove_eq _ player m (dst1 ++ [piece]) src.dropLast piece d _ hb1
    (by simp) hd (markDieUnused_two x y d) (by simpa using hb2)]
  simp only [List.dropLast_concat]
  rw [hb3]

theorem chanceValues_entry (o : Int) (h0 : 0 ≤ o) (h21 : o < 21) :
    ∃ a b, kChanceOutcomeValues[o.toNat]? = some [a, b] ∧ 1 ≤ a ∧ a ≤ b ∧ b ≤ 6 ∧
      (o < 15 → a ≠ b) ∧ (15 ≤ o → a = b) := by
  interval_cases o <;> exact ⟨_, _, rfl, by decide, by decide, by decide, by decide, by decide⟩

theorem RollDice_eq (s : CrownyState) (o a b : Int) (h0 : 0 ≤ o)
    (hv : kChanceOutcomeValues[o.toNat]? = some [a, b]) :
    RollDice s o = .ok { s with dice_ := s.dice_ ++ [a] ++ [b] } := by
  have hneg : ¬ o < 0 := by omega
  simp [RollDice, hneg, hv]

/-! ## The decoder in terms of quotients and remainders -/

theorem decodeStep_eq (x : Int) (hx : 0 ≤ x) :
    decodeStep x
      = (⟨((x / 121 % 121) / 11, (x / 121 % 121) % 11), ((x % 121) / 11, (x % 121) % 11)⟩,
          x / 121 / 121) := by
  have e1 : x.tmod 121 = x % 121 := Int.tmod_eq_emod hx (by norm_num)
  have e2 : x.tdiv 121 = x / 121 := Int.tdiv_eq_ediv hx (by norm_num)
  have hq : 0 ≤ x / 121 := by omega
  have e3 : (x / 121).tmod 121 = (x / 121) % 121 := Int.tmod_eq_emod hq (by norm_num)
  have e4 : (x / 121).tdiv 121 = (x / 121) / 121 := Int.tdiv_eq_ediv hq (by norm_num)
  have hm1 : 0 ≤ x % 121 := by omega
  have hm2 : 0 ≤ (x / 121) % 121 := by omega
  have e5 : (x % 121).tdiv 11 = (x % 121) / 11 := Int.tdiv_eq_ediv hm1 (by norm_num)
  have e6 : (x % 121).tmod 11 = (x % 121) % 11 := Int.tmod_eq_emod hm1 (by norm_num)
  have e7 : ((x / 121) % 121).tdiv 11 = ((x / 121) % 121) / 11 := Int.tdiv_eq_ediv hm2 (by norm_num)
  have e8 : ((x / 121) % 121).tmod 11 = ((x / 121) % 121) % 11 := Int.tmod_eq_emod hm2 (by norm_num)
  simp only [decodeStep]
  rw [e1, e2, e3, e4, e5, e6, e7, e8]

theorem SpielMoveToCheckerMoves_eq (player a : Int) (h0 : 0 ≤ a) (h1 : a < kNumDistinctActions) :
    SpielMoveToCheckerMoves player a
      = .ok [⟨((a / 121 % 121) / 11, (a / 121 % 121) % 11), ((a % 121) / 11, (a % 121) % 11)⟩,
             ⟨((a / 121 / 121 / 121 % 121) / 11, (a / 121 / 121 / 121 % 121) % 11),
              ((a / 121 / 121 % 121) / 11, (a / 121 / 121 % 121) % 11)⟩] := by
  have hge : a ≥ 0 := h0
  have hq : 0 ≤ a / 121 / 121 := by omega
  simp only [SpielMoveToCheckerMoves, hge, h1, not_true_eq_false, if_false,
    decodeStep_eq a h0, decodeStep_eq (a / 121 / 121) hq]

/-- Applying a normal-roll outcome at a chance node with empty dice. -/
theorem DoApplyAction_normal_roll (s : CrownyState) (o a b : Int)
    (hch : IsChanceNode s = true) (ht : s.turns_ ≠ -1) (hd : s.dice_ = [])
    (h0 : 0 ≤ o) (hv : kChanceOutcomeValues[o.toNat]? = some [a, b]) :
    DoApplyAction s o = .ok { s with dice_ := [a, b], cur_player_ := 1 - s.prev_player_ } := by
  simp only [DoApplyAction, hch, ht, hd, if_true, if_false, bind, Except.bind,
    RollDice_eq _ o a b h0 hv, Opponent]
  simp

/-! ## Frame of a checker move and of an action -/

theorem SpielMoveToCheckerMoves_two (player a : Int) (moves : List CheckerMove)
    (h : SpielMoveToCheckerMoves player a = .ok moves) : ∃ m0 m1, moves = [m0, m1] := by
  unfold SpielMoveToCheckerMoves at h
  split_ifs at h
  cases h
  exact ⟨_, _, rfl⟩


theorem markDieUsed_frame (dice dice1 : List Int) (d : Int)
    (h : markDieUsed dice d = .ok dice1) :
    List.Forall₂ (fun old new => new = old ∨ new = old + 6) dice dice1 := by
  have hrefl : ∀ l : List Int, List.Forall₂ (fun old new => new = old ∨ new = old + 6) l l := by
    intro l
    induction l with
    | nil => exact List.Forall₂.nil
    | cons x xs ih => exact List.Forall₂.cons (Or.inl rfl) ih
  match dice, h with
  | [], h => simp [markDieUsed] at h
  | [d0], h =>
    simp only [markDieUsed, List.getElem?_cons_zero, List.getElem?_cons_succ,
      List.getElem?_nil] at h
    split_ifs at h
    cases h
    exact List.Forall₂.cons (Or.inr rfl) List.Forall₂.nil
  | d0 :: d1 :: tl, h =>
    simp only [markDieUsed, List.getElem?_cons_zero, List.getElem?_cons_succ] at h
    split_ifs at h
    · cases h
      exact List.Forall₂.cons (Or.inr rfl) (hrefl _)
    · cases h
      exact List.Forall₂.cons (Or.inl rfl) (List.Forall₂.cons (Or.inr rfl) (hrefl _))
    · cases h
      exact hrefl _

/-- `ApplyCheckerMove` writes the board and the dice only, and a die is
either kept or raised by 6. -/
theorem ApplyCheckerMove_frame (s s1 : CrownyState) (player : Int) (m : CheckerMove)
    (h : ApplyCheckerMove s player m = .ok s1) :
    s1 = { s with dice_ := s1.dice_, board_ := s1.board_ } ∧
    List.Forall₂ (fun old new => new = old ∨ new = old + 6) s.dice_ s1.dice_ := by
  obtain ⟨src, piece, d, dice1, dst1, -, -, -, hdice, -, rfl⟩ :=
    ApplyCheckerMove_inv s s1 player m h
  exact ⟨rfl, markDieUsed_frame _ _ d hdice⟩

theorem dieMarked_two_steps (l0 l1 l2 : List Int)
    (h1 : List.Forall₂ (fun old new => new = old ∨ new = old + 6) l0 l1)
    (h2 : List.Forall₂ (fun old new => new = old ∨ new = old + 6) l1 l2) :
    List.Forall₂ dieMarked l0 l2 := by
  induction h1 generalizing l2 with
  | nil =>
    cases h2
    exact List.Forall₂.nil
  | cons hab _ ih =>
    cases h2 with
    | cons hbc htl =>
      refine List.Forall₂.cons ?_ (ih _ htl)
      unfold dieMarked
      omega

/-- What a successful move action leaves: the state after the two checker
moves with `prev_player_` set. -/
theorem DoApplyAction_move_inv (s s1 : CrownyState) (a : Int)
    (hplayer : IsChanceNode s = false) (h : DoApplyAction s a = .ok s1) :
    ∃ m0 m1 t1 t2, SpielMoveToCheckerMoves s.cur_player_ a = .ok [m0, m1] ∧
      ApplyCheckerMove s s.cur_player_ m0 = .ok t1 ∧
      ApplyCheckerMove t1 t1.cur_player_ m1 = .ok t2 ∧
      s1 = { t2 with prev_player_ := t2.cur_player_ } := by
  unfold DoApplyAction at h
  simp only [hplayer, Bool.false_eq_true, if_false, bind, Except.bind] at h
  cases hdec : SpielMoveToCheckerMoves s.cur_player_ a with
  | error e => simp [hdec] at h
  | ok moves =>
    obtain ⟨m0, m1, rfl⟩ := SpielMoveToCheckerMoves_two _ _ _ hdec
    simp only [hdec, List.getElem?_cons_zero, List.getElem?_cons_succ] at h
    cases h1 : ApplyCheckerMove s s.cur_player_ m0 with
    | error e => simp [h1] at h
    | ok t1 =>
      simp only [h1] at h
      cases h2 : ApplyCheckerMove t1 t1.cur_player_ m1 with
      | error e => simp [h2] at h
      | ok t2 =>
        simp only [h2] at h
        cases h
        exact ⟨m0, m1, t1, t2, rfl, h1, h2, rfl⟩

theorem DiceValue_two (s : CrownyState) (a b : Int) (hd : s.dice_ = [a, b])
    (ha : 1 ≤ a ∧ a ≤ 12) (hb : 1 ≤ b ∧ b ≤ 12) :
    (∃ v, DiceValue s 0 = .ok v) ∧ ∃ v, DiceValue s 1 = .ok v := by
  constructor
  · by_cases h6 : a ≤ 6
    · exact ⟨a, by simp [DiceValue, hd, ha.1, h6]⟩
    · have h7 : 7 ≤ a := by omega
      exact ⟨a - 6, by simp [DiceValue, hd, h6, h7, ha.2]⟩
  · by_cases h6 : b ≤ 6
    · exact ⟨b, by simp [DiceValue, hd, hb.1, h6]⟩
    · have h7 : 7 ≤ b := by omega
      exact ⟨b - 6, by simp [DiceValue, hd, h6, h7, hb.2]⟩

/-! ## Sample states are the ones the engine produces -/

theorem redToMove_eq : DoApplyAction (CrownyState.init .kWinLossScoring) 0 = .ok redToMove := by
  decide

theorem blueToMove_eq : DoApplyAction (CrownyState.init .kWinLossScoring) 15 = .ok blueToMove := by
  decide

theorem redFiveSix_eq : DoApplyAction (CrownyState.init .kWinLossScoring) 14 = .ok redFiveSix := by
  decide

/-! ## C1: encode / decode round trip -/

/-- C1, evaluated at a failing input.  Blue to move with dice 1 and 2 plays
the pawn (0,8) -> (0,7) and the self-loop (0,0) -> (0,0).  The encoder packs
the pair into 855; the decoder turns 855 into (0,7) -> (0,8) and the
self-loop: the first move comes back with from and to exchanged, so decoding
the encoded pair does not give the pair back. -/
theorem C1_round_trip_fails :
    CheckerMovesToSpielMove blueToMove [⟨(0, 8), (0, 7)⟩, ⟨(0, 0), (0, 0)⟩] = .ok 855 ∧
    SpielMoveToCheckerMoves kOPlayerId 855 = .ok [⟨(0, 7), (0, 8)⟩, ⟨(0, 0), (0, 0)⟩] ∧
    SpielMoveToCheckerMoves kOPlayerId 855 ≠ .ok [⟨(0, 8), (0, 7)⟩, ⟨(0, 0), (0, 0)⟩] := by
  decide

/-! ## C2: apply / undo of one checker move -/

/-- C2, refuted as stated.  With a double 3 whose first die is already used
(dice stored as 9 and 3), red moves the top piece of (10,0) three rows up to
(7,0).  `ApplyCheckerMove` marks die 1 (dice 9, 9); `UndoCheckerMove` then
unmarks die 0, the first die that stores 9: the board is back, but the dice are
3 and 9 instead of 9 and 3, so the state is not the one before. -/
theorem C2_apply_undo_not_identity :
    doubleThreeOneUsed.dice_ = [9, 3] ∧ onBoard (10, 0) ∧ onBoard (7, 0) ∧
    (stackAt doubleThreeOneUsed.board_ (10, 0)).map List.length = .ok 4 ∧
    (ApplyCheckerMove doubleThreeOneUsed kXPlayerId ⟨(10, 0), (7, 0)⟩ >>=
        fun s1 => UndoCheckerMove s1 kXPlayerId ⟨(10, 0), (7, 0)⟩)
      = .ok { doubleThreeOneUsed with dice_ := [3, 9] } ∧
    (ApplyCheckerMove doubleThreeOneUsed kXPlayerId ⟨(10, 0), (7, 0)⟩ >>=
        fun s1 => UndoCheckerMove s1 kXPlayerId ⟨(10, 0), (7, 0)⟩)
      ≠ .ok doubleThreeOneUsed := by
  decide

/-- C2, amended.  For every state with an 11 x 11 board holding two dice
`[a, b]` (any stored values) and every checker move whose source cell holds
a non-empty stack `src` (so it is on the board) and whose destination cell is
on the board (a from == to move included), `ApplyCheckerMove`
succeeds and `UndoCheckerMove` on its result succeeds and returns exactly the
state before (board, both dice in their positions, everything else),
provided that for the distance `d` of the move die 0 does not store `d + 6`
and either die 0 stores `d` or die 1 does not store `d + 6`. -/
theorem C2_apply_undo_inverse (s : CrownyState) (player : Int) (m : CheckerMove)
    (a b d : Int) (src : List Piece)
    (hshape : boardShape s.board_) (hto : onBoard m.to_)
    (hsrc : stackAt s.board_ m.from_ = .ok src) (hne : src ≠ [])
    (hdice : s.dice_ = [a, b]) (hd : GetDistance m.from_ m.to_ = .ok d)
    (hcond : a ≠ d + 6 ∧ (a = d ∨ b ≠ d + 6)) :
    ∃ s1, ApplyCheckerMove s player m = .ok s1 ∧ UndoCheckerMove s1 player m = .ok s := by
  obtain ⟨dst, hdst⟩ := stackAt_of_onBoard s.board_ m.to_ hshape hto
  obtain ⟨dst1, hdst1⟩ := stackAt_setStack_ok s.board_ m.from_ m.to_ src src.dropLast dst hsrc hdst
  obtain ⟨piece, hlast⟩ : ∃ piece, src.getLast? = some piece := by
    cases hl : src.getLast? with
    | none => exact absurd (List.getLast?_eq_none_iff.1 hl) hne
    | some piece => exact ⟨piece, rfl⟩
  obtain ⟨dice1, hmark, hunmark⟩ := dice_mark_unmark a b d hcond
  rw [← hdice] at hmark
  obtain ⟨hb1, hb2, hb3⟩ := board_pop_push_inverse s.board_ m.from_ m.to_ src dst1 piece hsrc hlast hdst1
  refine ⟨_, ApplyCheckerMove_eq s player m src dst1 piece d dice1 hsrc hlast hd hmark hdst1, ?_⟩
  rw [UndoCheckerMove_eq _ player m (dst1 ++ [piece]) src.dropLast piece d [a, b] hb1
    (by simp) hd hunmark (by simpa using hb2)]
  simp only [List.dropLast_concat]
  rw [hb3, ← hdice]

/-- Witness for C2: in the opening position with dice 1 and 2, red moves the
top piece of (10,0) one row up; the distance 1 is the value of die 0. -/
theorem C2_apply_undo_inverse_witness :
    ∃ s1, ApplyCheckerMove redToMove kXPlayerId ⟨(10, 0), (9, 0)⟩ = .ok s1 ∧
      UndoCheckerMove s1 kXPlayerId ⟨(10, 0), (9, 0)⟩ = .ok redToMove :=
  C2_apply_undo_inverse redToMove kXPlayerId ⟨(10, 0), (9, 0)⟩ 1 2 1
    [Pawn .ENUM_RED, Pawn .ENUM_RED, Archer .ENUM_RED, King .ENUM_RED]
    (by decide) (by decide) (by decide) (by decide) (by decide) (by decide) (by decide)

/-! ## C3: apply / undo of an action -/

/-- C3, evaluated at failing inputs.  `UndoAction` has no statement left in
its body, so it hands back the state it was given.  At the initial chance
node the opening roll 0 leads to the state `redToMove` (dice 1 and 2, red to
move, turn counter 0) and undoing it leaves `redToMove`, not the initial
state.  At the player node `redToMove` the move action 968 (which decodes to
(0,8) -> (0,0) and (0,0) -> (0,0)) is applied successfully and undoing it
does not give `redToMove` back. -/
theorem C3_undo_action_restores_nothing :
    DoApplyAction (CrownyState.init .kWinLossScoring) 0 = .ok redToMove ∧
    UndoAction redToMove kChancePlayerId 0 = redToMove ∧
    UndoAction redToMove kChancePlayerId 0 ≠ CrownyState.init .kWinLossScoring ∧
    (DoApplyAction redToMove 968).map
      (fun s1 => decide (UndoAction s1 kXPlayerId 968 = redToMove)) = .ok false := by
  decide

/-! ## C4: piece conservation -/

/-- The initial setup `SetupInitialBoard` places 20 pieces of each side. -/
theorem initial_piece_count (st : ScoringType) (t : PieceType) :
    piecesOnBoard (CrownyState.init st).board_ t = 20 := by
  cases t <;> cases st <;> decide


/-- C4.  In every state reached from the constructed state by successful
`DoApplyAction`, `ApplyCheckerMove` and `UndoCheckerMove` calls (in any order,
so in particular by applied actions alone), for each side the number of its
pieces on the board plus its score equals the number of its pieces that
`SetupInitialBoard` placed. -/
theorem C4_piece_conservation (st : ScoringType) (s : CrownyState) (h : Explored st s)
    (t : PieceType) :
    (piecesOnBoard s.board_ t : Int) + scoreOf s t
      = piecesOnBoard (CrownyState.init st).board_ t := by
  have key : piecesOnBoard s.board_ t = piecesOnBoard (CrownyState.init st).board_ t ∧
      s.scores_ = (CrownyState.init st).scores_ := by
    induction h with
    | init => exact ⟨rfl, rfl⟩
    | action s0 s1 a _ hstep ih =>
      obtain ⟨h1, h2⟩ := DoApplyAction_conserves s0 s1 a t hstep
      exact ⟨h1.trans ih.1, h2.trans ih.2⟩
    | apply s0 s1 player m _ hstep ih =>
      obtain ⟨h1, h2, _⟩ := ApplyCheckerMove_conserves s0 s1 player m t hstep
      exact ⟨h1.trans ih.1, h2.trans ih.2⟩
    | undo s0 s1 player m _ hstep ih =>
      obtain ⟨h1, h2⟩ := UndoCheckerMove_conserves s0 s1 player m t hstep
      exact ⟨h1.trans ih.1, h2.trans ih.2⟩
  obtain ⟨hb, hs⟩ := key
  have hscore : scoreOf s t = 0 := by
    cases t <;> simp [scoreOf, hs, CrownyState.init]
  rw [hb, hscore]
  simp

/-- Witness for C4: the state after the opening roll 0 and red pieces. -/
theorem C4_piece_conservation_witness :
    (piecesOnBoard redToMove.board_ .ENUM_RED : Int) + scoreOf redToMove .ENUM_RED
      = piecesOnBoard (CrownyState.init .kWinLossScoring).board_ .ENUM_RED :=
  C4_piece_conservation .kWinLossScoring redToMove
    (Explored.action _ _ 0 Explored.init redToMove_eq) .ENUM_RED

/-! ## C5: dice-usage rule of the legal actions -/

/-- C5, evaluated at a failing input.  `redToMove` (after the opening roll 0)
is neither a chance node nor terminal, so `LegalActions` runs the move
search; the search calls `LegalCheckerMoves`, whose body is commented out and
ends without returning a set, so no list of legal actions is produced at
all. -/
theorem C5_legal_actions_undefined :
    IsChanceNode redToMove = false ∧ IsTerminal redToMove = false ∧
    LegalActions redToMove = .error .undefinedBehaviour := by
  decide

/-! ## C6: the encoder and the action-space bound -/

/-- C6, evaluated at a failing input.  Red to move with dice 1 and 2 plays
(10,0) -> (9,0) and (10,1) -> (8,1); all four cells are on the board.  The
packed value is 159306169, which is not below `kNumDistinctActions` = 1352,
so the range check of `CheckerMovesToSpielMove` fails. -/
theorem C6_encode_exceeds_bound :
    onBoard (10, 0) ∧ onBoard (9, 0) ∧ onBoard (10, 1) ∧ onBoard (8, 1) ∧
    ((8 * 11 + 1) * 121 * 121 * 121 + (10 * 11 + 1) * 121 * 121 + (9 * 11 + 0) * 121
      + (10 * 11 + 0) : Int) = 159306169 ∧
    ¬ ((159306169 : Int) < kNumDistinctActions) ∧
    CheckerMovesToSpielMove redToMove [⟨(10, 0), (9, 0)⟩, ⟨(10, 1), (8, 1)⟩]
      = .error .checkFailed := by
  decide

/-! ## C7: injectivity of the encoder -/

/-- C7, refuted as stated.  Red to move with dice 5 and 6.  The pair whose
first move is the scoring move (0,6) -> (0,11) (column 11 is off the board)
and the pair whose first move is (0,6) -> (1,0) are different, have on-board
from cells, and both are encoded as 1337. -/
theorem C7_off_board_collision :
    IsOff redFiveSix (0, 11) = true ∧ onBoard (0, 6) ∧ onBoard (0, 0) ∧
    ([⟨(0, 6), (0, 11)⟩, ⟨(0, 0), (0, 0)⟩] : List CheckerMove)
      ≠ [⟨(0, 6), (1, 0)⟩, ⟨(0, 0), (0, 0)⟩] ∧
    CheckerMovesToSpielMove redFiveSix [⟨(0, 6), (0, 11)⟩, ⟨(0, 0), (0, 0)⟩] = .ok 1337 ∧
    CheckerMovesToSpielMove redFiveSix [⟨(0, 6), (1, 0)⟩, ⟨(0, 0), (0, 0)⟩] = .ok 1337 := by
  decide

/-- C7, amended.  For any two sequences of checker moves all of whose from
and to cells are on the board and for which `CheckerMovesToSpielMove` returns
an id, different sequences get different ids. -/
theorem C7_encode_injective_on_board (s : CrownyState) (moves moves1 : List CheckerMove)
    (a a1 : Int)
    (hon : ∀ m ∈ moves, onBoard m.from_ ∧ onBoard m.to_)
    (hon1 : ∀ m ∈ moves1, onBoard m.from_ ∧ onBoard m.to_)
    (h : CheckerMovesToSpielMove s moves = .ok a)
    (h1 : CheckerMovesToSpielMove s moves1 = .ok a1)
    (hne : moves ≠ moves1) : a ≠ a1 := by
  obtain ⟨m0, m1, rfl, -, -, -⟩ := CheckerMovesToSpielMove_ok s moves a h
  obtain ⟨n0, n1, rfl, -, -, -⟩ := CheckerMovesToSpielMove_ok s moves1 a1 h1
  intro heq
  apply hne
  obtain ⟨b0f, b0t⟩ := hon m0 (by simp)
  obtain ⟨b1f, b1t⟩ := hon m1 (by simp)
  obtain ⟨c0f, c0t⟩ := hon1 n0 (by simp)
  obtain ⟨c1f, c1t⟩ := hon1 n1 (by simp)
  have ha := (CheckerMovesToSpielMove_onBoard s m0 m1 a b0f b0t b1f b1t h).1
  have ha1 := (CheckerMovesToSpielMove_onBoard s n0 n1 a1 c0f c0t c1f c1t h1).1
  have d0 := digit_range _ b0f
  have d1 := digit_range _ b0t
  have d2 := digit_range _ b1f
  have d3 := digit_range _ b1t
  have d4 := digit_range _ c0f
  have d5 := digit_range _ c0t
  have d6 := digit_range _ c1f
  have d7 := digit_range _ c1t
  obtain ⟨k0, r0⟩ := base121_unique
    (((m1.to_.1 * 11 + m1.to_.2) * 121 + (m1.from_.1 * 11 + m1.from_.2)) * 121
      + (m0.to_.1 * 11 + m0.to_.2))
    (((n1.to_.1 * 11 + n1.to_.2) * 121 + (n1.from_.1 * 11 + n1.from_.2)) * 121
      + (n0.to_.1 * 11 + n0.to_.2))
    (m0.from_.1 * 11 + m0.from_.2) (n0.from_.1 * 11 + n0.from_.2) d0 d4 (by omega)
  obtain ⟨k1, r1⟩ := base121_unique
    ((m1.to_.1 * 11 + m1.to_.2) * 121 + (m1.from_.1 * 11 + m1.from_.2))
    ((n1.to_.1 * 11 + n1.to_.2) * 121 + (n1.from_.1 * 11 + n1.from_.2))
    (m0.to_.1 * 11 + m0.to_.2) (n0.to_.1 * 11 + n0.to_.2) d1 d5 r0
  obtain ⟨k2, k3⟩ := base121_unique
    (m1.to_.1 * 11 + m1.to_.2) (n1.to_.1 * 11 + n1.to_.2)
    (m1.from_.1 * 11 + m1.from_.2) (n1.from_.1 * 11 + n1.from_.2) d2 d6 r1
  have e0f : m0.from_ = n0.from_ := cell_of_digit _ _ b0f c0f k0
  have e0t : m0.to_ = n0.to_ := cell_of_digit _ _ b0t c0t k1
  have e1f : m1.from_ = n1.from_ := cell_of_digit _ _ b1f c1f k2
  have e1t : m1.to_ = n1.to_ := cell_of_digit _ _ b1t c1t k3
  cases m0
  cases m1
  cases n0
  cases n1
  simp_all

/-- Witness for C7: with red to move and dice 1 and 2, the on-board pairs
((0,8) -> (0,7), self-loop) and (self-loop, self-loop) get the ids 855 and 0. -/
theorem C7_encode_injective_on_board_witness : (855 : Int) ≠ 0 :=
  C7_encode_injective_on_board redToMove [⟨(0, 8), (0, 7)⟩, ⟨(0, 0), (0, 0)⟩]
    [⟨(0, 0), (0, 0)⟩, ⟨(0, 0), (0, 0)⟩] 855 0 (by decide) (by decide) (by decide) (by decide)
    (by decide)

/-! ## C8: the decoder on and off the action space -/

/-- C8.  `SpielMoveToCheckerMoves(player, a)` fails iff `a < 0` or
`a >= kNumDistinctActions`, and then with a failed range check; for every `a`
in `[0, kNumDistinctActions)` it returns exactly two checker moves whose four
cells are all on the board. -/
theorem C8_decode_total (player : Int) (a : Int) :
    ((∃ e, SpielMoveToCheckerMoves player a = .error e) ↔ (a < 0 ∨ a ≥ kNumDistinctActions)) ∧
    ((a < 0 ∨ a ≥ kNumDistinctActions) →
      SpielMoveToCheckerMoves player a = .error .checkFailed) ∧
    ((0 ≤ a ∧ a < kNumDistinctActions) →
      ∃ m0 m1, SpielMoveToCheckerMoves player a = .ok [m0, m1] ∧
        onBoard m0.from_ ∧ onBoard m0.to_ ∧ onBoard m1.from_ ∧ onBoard m1.to_) := by
  have hfail : (a < 0 ∨ a ≥ kNumDistinctActions) →
      SpielMoveToCheckerMoves player a = .error .checkFailed := by
    intro h
    unfold SpielMoveToCheckerMoves
    by_cases h0 : a ≥ 0
    · have h1 : ¬ a < kNumDistinctActions := by omega
      simp [h0, h1]
    · simp [h0]
  have hok : (0 ≤ a ∧ a < kNumDistinctActions) →
      ∃ m0 m1, SpielMoveToCheckerMoves player a = .ok [m0, m1] ∧
        onBoard m0.from_ ∧ onBoard m0.to_ ∧ onBoard m1.from_ ∧ onBoard m1.to_ := by
    rintro ⟨h0, h1⟩
    obtain ⟨s1, s2, s3, -⟩ := decodeStep_onBoard a h0
    obtain ⟨t1, t2, -, -⟩ := decodeStep_onBoard (decodeStep a).2 s3
    refine ⟨(decodeStep a).1, (decodeStep (decodeStep a).2).1, ?_, s1, s2, t1, t2⟩
    have h0g : a ≥ 0 := h0
    simp [SpielMoveToCheckerMoves, h0g, h1]
  refine ⟨⟨?_, fun h => ⟨_, hfail h⟩⟩, hfail, hok⟩
  rintro ⟨e, he⟩
  by_contra hcon
  obtain ⟨m0, m1, hm, -⟩ := hok (by omega)
  rw [hm] at he
  cases he

/-! ## C9: encoding a decoded action -/

/-- C9, evaluated at a failing input.  The id 855 is produced by the encoder
(from the on-board pair (0,8) -> (0,7), (0,0) -> (0,0)), its decoding is
(0,7) -> (0,8), (0,0) -> (0,0), and encoding that gives 975, not 855. -/
theorem C9_encode_of_decode_differs :
    CheckerMovesToSpielMove blueToMove [⟨(0, 8), (0, 7)⟩, ⟨(0, 0), (0, 0)⟩] = .ok 855 ∧
    (SpielMoveToCheckerMoves kOPlayerId 855 >>= CheckerMovesToSpielMove blueToMove) = .ok 975 := by
  decide

/-! ## C10: terminal test and current player -/

/-- C10.  For every state, `IsTerminal` holds iff the score of X or the score
of O equals 15 (`NumCheckersPerPlayer`); `CurrentPlayer` returns the terminal
player id in those states and `cur_player_` in all others; so, unless
`cur_player_` itself stores the terminal id, `CurrentPlayer` returns the
terminal id exactly in the terminal states. -/
theorem C10_terminal_and_current_player (s : CrownyState) :
    NumCheckersPerPlayer = 15 ∧
    (IsTerminal s = true ↔ (s.scores_.1 = 15 ∨ s.scores_.2 = 15)) ∧
    (IsTerminal s = true → CurrentPlayer s = kTerminalPlayerId) ∧
    (IsTerminal s = false → CurrentPlayer s = s.cur_player_) ∧
    (s.cur_player_ ≠ kTerminalPlayerId →
      (CurrentPlayer s = kTerminalPlayerId ↔ IsTerminal s = true)) := by
  refine ⟨rfl, ?_, ?_, ?_, ?_⟩
  · simp [IsTerminal, NumCheckersPerPlayer, kNumCheckersPerPlayer]
  · intro h
    simp [CurrentPlayer, h]
  · intro h
    simp [CurrentPlayer, h]
  · intro hne
    cases h : IsTerminal s <;> simp [CurrentPlayer, h, hne]

/-! ## C11: the returns are zero-sum -/

/-- C11.  For every state `Returns()` has two entries that sum to 0.  When
the score of X equals 15, X gets a strictly positive return and O its
negation; when the score of O equals 15 and that of X does not, O gets a
strictly positive return and X its negation; when the state is not terminal
both entries are 0. -/
theorem C11_returns_zero_sum (s : CrownyState) :
    ∃ r0 r1 : ℚ, Returns s = [r0, r1] ∧ r0 + r1 = 0 ∧
      (s.scores_.1 = 15 → 0 < r0 ∧ r1 = -r0) ∧
      (s.scores_.1 ≠ 15 → s.scores_.2 = 15 → 0 < r1 ∧ r0 = -r1) ∧
      (IsTerminal s = false → r0 = 0 ∧ r1 = 0) := by
  have hmag : ∀ st : ScoringType,
      (match st with
        | .kWinLossScoring => (1 : Int)
        | .kFullScoring => 1) = 1 := by
    intro st
    cases st <;> rfl
  by_cases hx : s.scores_.1 = 15
  · refine ⟨1, -1, ?_, by norm_num, fun _ => ⟨by norm_num, rfl⟩, fun h => absurd hx h, ?_⟩
    · simp [Returns, hx, hmag, kNumPlayers, kXPlayerId, kOPlayerId]
    · intro ht
      simp [IsTerminal, NumCheckersPerPlayer, kNumCheckersPerPlayer, hx] at ht
  · by_cases ho : s.scores_.2 = 15
    · refine ⟨-1, 1, ?_, by norm_num, fun h => absurd h hx, fun _ _ => ⟨by norm_num, rfl⟩, ?_⟩
      · simp [Returns, hx, ho, hmag, kNumPlayers, kXPlayerId, kOPlayerId]
      · intro ht
        simp [IsTerminal, NumCheckersPerPlayer, kNumCheckersPerPlayer, ho] at ht
    · refine ⟨0, 0, ?_, by norm_num, fun h => absurd h hx, fun _ h => absurd h ho, fun _ => ⟨rfl, rfl⟩⟩
      simp [Returns, hx, ho]

/-! ## C12, C13: the normal-roll table -/

theorem chance_table_entry (i : Nat) (hi : i < 21) :
    kChanceOutcomes[i]? = some ((i : Int), if i < 15 then 1 / 18 else 1 / 36) := by
  interval_cases i <;> simp [kChanceOutcomes]

theorem isDoubleOutcome_iff (i : Nat) (hi : i < 21) : isDoubleOutcome i = true ↔ 15 ≤ i := by
  interval_cases i <;> decide

/-- The `double` quotient `1.0 / 18`. -/
theorem double_one_over_18 : (1 : Double) / 18 = .finite 8006399337547548 (-57) := by
  decide

/-- The `double` quotient `1.0 / 36`. -/
theorem double_one_over_36 : (1 : Double) / 36 = .finite 8006399337547548 (-58) := by
  decide

/-- The `double` quotient `1.0 / num_outcomes` for `num_outcomes == 30`. -/
theorem double_one_over_30 :
    (1 : Double) / Double.ofInt 30 = .finite 4803839602528529 (-57) := by
  decide

theorem toRat_one_over_18 : Double.toRat (1 / 18) = 2001599834386887 / 2 ^ 55 := by
  rw [double_one_over_18]
  simp only [Double.toRat]
  norm_num

theorem toRat_one_over_36 : Double.toRat (1 / 36) = 2001599834386887 / 2 ^ 56 := by
  rw [double_one_over_36]
  simp only [Double.toRat]
  norm_num

theorem toRat_one_over_30 :
    Double.toRat (1 / Double.ofInt 30) = 4803839602528529 / 2 ^ 57 := by
  rw [double_one_over_30]
  simp only [Double.toRat]
  norm_num

/-- The exact values of the 21 probabilities of the table add up to
`1 - 2^-54`. -/
theorem chance_table_sum :
    (kChanceOutcomes.map (fun o => Double.toRat o.2)).sum = 1 - 1 / 2 ^ 54 := by
  simp only [kChanceOutcomes, List.map_cons, List.map_nil, List.sum_cons, List.sum_nil,
    toRat_one_over_18, toRat_one_over_36]
  norm_num

/-- C12, counterexample.  At the chance node `awaitingRoll` (no dice,
`turns_ == 1`) `ChanceOutcomes()` returns the table `kChanceOutcomes`, whose
21 probabilities, read as exact rationals, sum to `1 - 2^-54` and not to 1;
the probability of outcome 0 is `2001599834386887 / 2^55`, not 1/18, and that
of outcome 15 is `2001599834386887 / 2^56`, not 1/36. -/
theorem C12_normal_roll_sum_below_one :
    IsChanceNode awaitingRoll = true ∧ awaitingRoll.turns_ ≠ -1 ∧
    ChanceOutcomes awaitingRoll = .ok kChanceOutcomes ∧
    (kChanceOutcomes.map (fun o => Double.toRat o.2)).sum = 1 - 1 / 2 ^ 54 ∧
    (kChanceOutcomes.map (fun o => Double.toRat o.2)).sum ≠ 1 ∧
    kChanceOutcomes[0]?.map (fun o => Double.toRat o.2) = some (2001599834386887 / 2 ^ 55) ∧
    kChanceOutcomes[15]?.map (fun o => Double.toRat o.2) = some (2001599834386887 / 2 ^ 56) ∧
    (2001599834386887 / 2 ^ 55 : ℚ) ≠ 1 / 18 ∧ (2001599834386887 / 2 ^ 56 : ℚ) ≠ 1 / 36 := by
  refine ⟨by decide, by decide, by decide, chance_table_sum, ?_, ?_, ?_, by norm_num,
    by norm_num⟩
  · rw [chance_table_sum]
    norm_num
  · simp only [kChanceOutcomes, List.getElem?_cons_zero, Option.map_some', toRat_one_over_18]
  · rw [chance_table_entry 15 (by decide)]
    simp only [Option.map_some']
    exact congrArg some toRat_one_over_36

/-- C12, amended.  At every chance node outside the opening roll
(`turns_ != -1`) `ChanceOutcomes()` returns 21 outcomes with the ids
0, 1, ..., 20; the 6 outcomes whose two dice are equal carry the `double`
`1.0 / 36` each and the 15 others the `double` `1.0 / 18` each.  The value of
`1.0 / 36` is exactly half the value of `1.0 / 18`; the two values are
`2001599834386887 / 2^56` and `2001599834386887 / 2^55`, each within `2^-58`
of 1/36 and 1/18; and the 21 values sum to `1 - 2^-54`. -/
theorem C12_normal_roll_distribution (s : CrownyState) (hch : IsChanceNode s = true)
    (ht : s.turns_ ≠ -1) :
    ∃ outs, ChanceOutcomes s = .ok outs ∧ outs.length = 21 ∧
      outs.map Prod.fst = (List.range 21).map (fun i : Nat => (i : Int)) ∧
      ((List.range 21).filter isDoubleOutcome).length = 6 ∧
      ((List.range 21).filter (fun i => !isDoubleOutcome i)).length = 15 ∧
      (∀ i, i < 21 →
        outs[i]?.map Prod.snd = some (if isDoubleOutcome i then 1 / 36 else 1 / 18)) ∧
      Double.toRat (1 / 36) = Double.toRat (1 / 18) / 2 ∧
      Double.toRat (1 / 18) = 2001599834386887 / 2 ^ 55 ∧
      Double.toRat (1 / 36) = 2001599834386887 / 2 ^ 56 ∧
      |Double.toRat (1 / 18) - 1 / 18| ≤ 1 / 2 ^ 58 ∧
      |Double.toRat (1 / 36) - 1 / 36| ≤ 1 / 2 ^ 58 ∧
      (outs.map (fun o => Double.toRat o.2)).sum = 1 - 1 / 2 ^ 54 := by
  refine ⟨kChanceOutcomes, ?_, by decide, by decide, by decide, by decide, ?_, ?_,
    toRat_one_over_18, toRat_one_over_36, ?_, ?_, chance_table_sum⟩
  · simp [ChanceOutcomes, hch, ht]
  · intro i hi
    rw [chance_table_entry i hi]
    by_cases hd : isDoubleOutcome i = true
    · have := (isDoubleOutcome_iff i hi).1 hd
      have hn : ¬ i < 15 := by omega
      simp [hd, hn]
    · have hlt : i < 15 := by
        by_contra hc
        exact hd ((isDoubleOutcome_iff i hi).2 (by omega))
      simp [hd, hlt]
  · rw [toRat_one_over_18, toRat_one_over_36]
    norm_num
  · rw [toRat_one_over_18, abs_le]
    constructor <;> norm_num
  · rw [toRat_one_over_36, abs_le]
    constructor <;> norm_num

/-- Witness for C12: the chance node `awaitingRoll`. -/
theorem C12_normal_roll_distribution_witness :
    ∃ outs, ChanceOutcomes awaitingRoll = .ok outs ∧ outs.length = 21 ∧
      outs.map Prod.fst = (List.range 21).map (fun i : Nat => (i : Int)) ∧
      ((List.range 21).filter isDoubleOutcome).length = 6 ∧
      ((List.range 21).filter (fun i => !isDoubleOutcome i)).length = 15 ∧
      (∀ i, i < 21 →
        outs[i]?.map Prod.snd = some (if isDoubleOutcome i then 1 / 36 else 1 / 18)) ∧
      Double.toRat (1 / 36) = Double.toRat (1 / 18) / 2 ∧
      Double.toRat (1 / 18) = 2001599834386887 / 2 ^ 55 ∧
      Double.toRat (1 / 36) = 2001599834386887 / 2 ^ 56 ∧
      |Double.toRat (1 / 18) - 1 / 18| ≤ 1 / 2 ^ 58 ∧
      |Double.toRat (1 / 36) - 1 / 36| ≤ 1 / 2 ^ 58 ∧
      (outs.map (fun o => Double.toRat o.2)).sum = 1 - 1 / 2 ^ 54 :=
  C12_normal_roll_distribution awaitingRoll (by decide) (by decide)

/-- The opening distribution of the constructed state: 30 outcomes with
the ids 0..29 in order, each with the `double` `1.0 / 30`. -/
theorem opening_outcomes (st : ScoringType) :
    ChanceOutcomes (CrownyState.init st)
      = .ok ((List.range 30).map (fun i : Nat => ((i : Int), (1 / 30 : Double)))) := by
  have hch : IsChanceNode (CrownyState.init st) = true := by
    cases st <;> decide
  have hturn : (CrownyState.init st).turns_ = -1 := rfl
  simp only [ChanceOutcomes, hch, hturn, kNumNonDoubleOutcomes]
  rfl

theorem opening_sum :
    (((List.range 30).map (fun i : Nat => ((i : Int), (1 / 30 : Double)))).map
      (fun o => Double.toRat o.2)).sum = 1 - 1 / 2 ^ 56 := by
  have h : Double.toRat (1 / 30) = 4803839602528529 / 2 ^ 57 := toRat_one_over_30
  simp only [List.map_map, Function.comp_def, List.map_const', List.length_range,
    List.sum_replicate, h]
  norm_num

/-- C14, counterexample.  In the constructed state with win/loss scoring the
probability of outcome 0, read as an exact rational, is
`4803839602528529 / 2^57`, which is not 1/30, and the 30 probabilities sum
to `1 - 2^-56`, not to 1. -/
theorem C14_opening_probability_not_a_thirtieth :
    ∃ outs, ChanceOutcomes (CrownyState.init .kWinLossScoring) = .ok outs ∧
      outs[0]?.map (fun o => Double.toRat o.2) = some (4803839602528529 / 2 ^ 57) ∧
      (4803839602528529 / 2 ^ 57 : ℚ) ≠ 1 / 30 ∧
      (outs.map (fun o => Double.toRat o.2)).sum = 1 - 1 / 2 ^ 56 ∧
      (outs.map (fun o => Double.toRat o.2)).sum ≠ 1 := by
  refine ⟨_, opening_outcomes .kWinLossScoring, ?_, by norm_num, opening_sum, ?_⟩
  · have h : Double.toRat (1 / 30) = 4803839602528529 / 2 ^ 57 := toRat_one_over_30
    simp [h]
  · rw [opening_sum]
    norm_num

/-- C14, amended.  In the constructed state (`turns_ == -1`)
`ChanceOutcomes()` returns the 30 outcomes with ids 0, 1, ..., 29 in this
order, their number being `MaxChanceOutcomes`, each with the same
probability, the `double` `1.0 / 30`.  Its value is
`4803839602528529 / 2^57`, within `2^-60` of 1/30, and the 30 values sum to
`1 - 2^-56`. -/
theorem C14_opening_roll_distribution (st : ScoringType) :
    (CrownyState.init st).turns_ = -1 ∧
    ChanceOutcomes (CrownyState.init st)
      = .ok ((List.range 30).map (fun i : Nat => ((i : Int), (1 / 30 : Double)))) ∧
    ((List.range 30).map (fun i : Nat => ((i : Int), (1 / 30 : Double)))).length = 30 ∧
    MaxChanceOutcomes = 30 ∧
    Double.toRat (1 / 30) = 4803839602528529 / 2 ^ 57 ∧
    |Double.toRat (1 / 30) - 1 / 30| ≤ 1 / 2 ^ 60 ∧
    (((List.range 30).map (fun i : Nat => ((i : Int), (1 / 30 : Double)))).map
      (fun o => Double.toRat o.2)).sum = 1 - 1 / 2 ^ 56 := by
  have h : Double.toRat (1 / 30) = 4803839602528529 / 2 ^ 57 := toRat_one_over_30
  refine ⟨rfl, opening_outcomes st, by simp, rfl, h, ?_, opening_sum⟩
  rw [h, abs_le]
  constructor <;> norm_num

/-! ## C15, C16: the chance transitions -/

/-- C15.  Applying the outcome `o` in `[0, 30)` to the constructed state
succeeds.  The new state has `cur_player_ == prev_player_ == X` when
`o < 15` and `== O` otherwise, `turns_ == 0`, the two dice
`kChanceOutcomeValues[o]` (`o < 15`) or `kChanceOutcomeValues[o - 15]`
(`o >= 15`), which are different values in 1..6, and every other field,
the board and the scores among them, as constructed; for `o < 15` the
outcome `o + 15` gives the same dice. -/
theorem C15_opening_roll_transition (st : ScoringType) (o : Int) (h0 : 0 ≤ o) (h30 : o < 30) :
    ∃ a b, kChanceOutcomeValues[(if o < 15 then o else o - 15).toNat]? = some [a, b] ∧
      a ≠ b ∧ 1 ≤ a ∧ a ≤ 6 ∧ 1 ≤ b ∧ b ≤ 6 ∧
      DoApplyAction (CrownyState.init st) o
        = .ok { CrownyState.init st with
                cur_player_ := if o < 15 then kXPlayerId else kOPlayerId,
                prev_player_ := if o < 15 then kXPlayerId else kOPlayerId,
                turns_ := 0, dice_ := [a, b] } ∧
      (o < 15 → (DoApplyAction (CrownyState.init st) (o + 15)).map (fun s1 => s1.dice_)
        = .ok [a, b]) := by
  have hch : IsChanceNode (CrownyState.init st) = true := by
    cases st <;> decide
  have hturn : (CrownyState.init st).turns_ = -1 := rfl
  have hdice : (CrownyState.init st).dice_ = [] := rfl
  by_cases hlt : o < 15
  · obtain ⟨a, b, hv, ha, hab, hb, hne, -⟩ := chanceValues_entry o h0 (by omega)
    refine ⟨a, b, by simpa [hlt] using hv, hne hlt, ha, by omega, by omega, hb, ?_, ?_⟩
    · have hk : o < kNumNonDoubleOutcomes := hlt
      simp only [DoApplyAction, hch, hturn, hdice, hk, if_true, bind, Except.bind,
        RollDice_eq _ o a b h0 hv, hlt]
      simp
    · intro _
      have hk : ¬ o + 15 < kNumNonDoubleOutcomes := by
        simp only [kNumNonDoubleOutcomes]
        omega
      have hsub : o + 15 - kNumNonDoubleOutcomes = o := by
        simp only [kNumNonDoubleOutcomes]
        omega
      simp only [DoApplyAction, hch, hturn, hdice, hk, if_true, if_false, bind, Except.bind,
        hsub, RollDice_eq _ o a b h0 hv]
      simp [Except.map]
  · obtain ⟨a, b, hv, ha, hab, hb, hne, -⟩ := chanceValues_entry (o - 15) (by omega) (by omega)
    refine ⟨a, b, by simpa [hlt] using hv, hne (by omega), ha, by omega, by omega, hb, ?_,
      fun h => absurd h hlt⟩
    have hk : ¬ o < kNumNonDoubleOutcomes := hlt
    have hsub : o - kNumNonDoubleOutcomes = o - 15 := rfl
    simp only [DoApplyAction, hch, hturn, hdice, hk, if_true, if_false, bind, Except.bind,
      hsub, RollDice_eq _ (o - 15) a b (by omega) hv, hlt]
    simp

/-- Witness for C15: the opening roll 20, O starts with the dice 2 and 3. -/
theorem C15_opening_roll_transition_witness :
    ∃ a b, kChanceOutcomeValues[(if (20 : Int) < 15 then (20 : Int) else 20 - 15).toNat]? = some [a, b] ∧
      a ≠ b ∧ 1 ≤ a ∧ a ≤ 6 ∧ 1 ≤ b ∧ b ≤ 6 ∧
      DoApplyAction (CrownyState.init .kFullScoring) 20
        = .ok { CrownyState.init .kFullScoring with
                cur_player_ := if (20 : Int) < 15 then kXPlayerId else kOPlayerId,
                prev_player_ := if (20 : Int) < 15 then kXPlayerId else kOPlayerId,
                turns_ := 0, dice_ := [a, b] } ∧
      ((20 : Int) < 15 →
        (DoApplyAction (CrownyState.init .kFullScoring) (20 + 15)).map (fun s1 => s1.dice_)
          = .ok [a, b]) :=
  C15_opening_roll_transition .kFullScoring 20 (by decide) (by decide)

/-- C16.  At every chance node with `turns_ != -1` and empty dice, applying
the outcome `o` in `[0, 21)` succeeds; the new state holds exactly the two
dice `kChanceOutcomeValues[o]`, both usable (unused values in 1..6), its
side to move is `Opponent(prev_player_) = 1 - prev_player_`, and every other
field, the board and the scores among them, is unchanged. -/
theorem C16_normal_roll_transition (s : CrownyState) (o : Int)
    (hch : IsChanceNode s = true) (ht : s.turns_ ≠ -1) (hd : s.dice_ = [])
    (h0 : 0 ≤ o) (h21 : o < 21) :
    ∃ a b, kChanceOutcomeValues[o.toNat]? = some [a, b] ∧
      UsableDiceOutcome a = true ∧ UsableDiceOutcome b = true ∧
      Opponent s.prev_player_ = 1 - s.prev_player_ ∧
      DoApplyAction s o
        = .ok { s with dice_ := [a, b], cur_player_ := 1 - s.prev_player_ } := by
  obtain ⟨a, b, hv, ha, hab, hb, -, -⟩ := chanceValues_entry o h0 h21
  refine ⟨a, b, hv, ?_, ?_, rfl, ?_⟩
  · simp only [UsableDiceOutcome, decide_eq_true_eq]
    omega
  · simp only [UsableDiceOutcome, decide_eq_true_eq]
    omega
  · simp only [DoApplyAction, hch, ht, hd, if_true, if_false, bind, Except.bind,
      RollDice_eq _ o a b h0 hv, Opponent]
    simp

/-- Witness for C16: the chance node `awaitingRoll` and the double 3 (outcome 17). -/
theorem C16_normal_roll_transition_witness :
    ∃ a b, kChanceOutcomeValues[(17 : Int).toNat]? = some [a, b] ∧
      UsableDiceOutcome a = true ∧ UsableDiceOutcome b = true ∧
      Opponent awaitingRoll.prev_player_ = 1 - awaitingRoll.prev_player_ ∧
      DoApplyAction awaitingRoll 17
        = .ok { awaitingRoll with dice_ := [a, b], cur_player_ := 1 - awaitingRoll.prev_player_ } :=
  C16_normal_roll_transition awaitingRoll 17 (by decide) (by decide) (by decide) (by decide)
    (by decide)

/-! ## C17: the state after a move action -/

/-- C17, evaluated at a failing input.  `blueToMove` (after the opening roll
15) is a player node with dice 1 and 2 and all turn counters 0.  The move
action 968 is applied successfully, and the state it leaves is not a chance
node: O is still the current player, the dice are still 1 and 2, and
`turns_`, `x_turns_` and `o_turns_` are still 0. -/
theorem C17_move_action_keeps_player_and_dice :
    IsChanceNode blueToMove = false ∧
    (blueToMove.dice_, blueToMove.turns_, blueToMove.x_turns_, blueToMove.o_turns_)
      = ([1, 2], 0, 0, 0) ∧
    (DoApplyAction blueToMove 968).map
        (fun s1 => (IsChanceNode s1, CurrentPlayer s1, s1.dice_, s1.turns_, s1.x_turns_,
          s1.o_turns_))
      = .ok (false, kOPlayerId, [1, 2], 0, 0, 0) := by
  decide

/-! ## C18: the stored dice values -/

/-- C18, evaluated at a failing input.  The opening roll 14 puts the dice 5
and 6 (from `RollDice`) into the state `redFiveSix`.  Applying the on-board
from == to move (10,0) -> (10,0) and undoing it leaves the dice 5 and 0: the
undo loop takes the unused 6 for a used die of distance 0.  `DiceValue(1)`
then stops with the fatal error for a bad dice value. -/
theorem C18_undo_of_self_loop_breaks_dice :
    DoApplyAction (CrownyState.init .kWinLossScoring) 14 = .ok redFiveSix ∧
    redFiveSix.dice_ = [5, 6] ∧ onBoard (10, 0) ∧
    (ApplyCheckerMove redFiveSix kXPlayerId ⟨(10, 0), (10, 0)⟩ >>=
        fun s1 => UndoCheckerMove s1 kXPlayerId ⟨(10, 0), (10, 0)⟩).map (fun s2 => s2.dice_)
      = .ok [5, 0] ∧
    (ApplyCheckerMove redFiveSix kXPlayerId ⟨(10, 0), (10, 0)⟩ >>=
        fun s1 => UndoCheckerMove s1 kXPlayerId ⟨(10, 0), (10, 0)⟩ >>=
        fun s2 => DiceValue s2 1)
      = .error .fatalError := by
  decide

/-! ## C19: the initial setup -/

/-- C19, evaluated at the constructed state.  `SetupInitialBoard` puts 20
red and 20 blue pieces on the board, not `kNumCheckersPerPlayer` = 15: the
stack heights are 2, 1, 1 / 3, 3, 1 / 4, 3, 2 in the red corner (rows 8..10,
columns 0..2) and 2, 3, 4 / 1, 3, 3 / 1, 1, 2 in the blue corner (rows 0..2,
columns 8..10).  Every red piece is in rows 8..10 and columns 0..2, every
blue piece in rows 0..2 and columns 8..10, so all other cells are empty. -/
theorem C19_initial_setup_places_twenty (st : ScoringType) :
    kNumCheckersPerPlayer = 15 ∧
    piecesOnBoard (CrownyState.init st).board_ .ENUM_RED = 20 ∧
    piecesOnBoard (CrownyState.init st).board_ .ENUM_BLUE = 20 ∧
    (CrownyState.init st).board_.map (fun row => row.map List.length)
      = [[0, 0, 0, 0, 0, 0, 0, 0, 2, 3, 4], [0, 0, 0, 0, 0, 0, 0, 0, 1, 3, 3],
         [0, 0, 0, 0, 0, 0, 0, 0, 1, 1, 2], [0, 0, 0, 0, 0, 0, 0, 0, 0, 0, 0],
         [0, 0, 0, 0, 0, 0, 0, 0, 0, 0, 0], [0, 0, 0, 0, 0, 0, 0, 0, 0, 0, 0],
         [0, 0, 0, 0, 0, 0, 0, 0, 0, 0, 0], [0, 0, 0, 0, 0, 0, 0, 0, 0, 0, 0],
         [2, 1, 1, 0, 0, 0, 0, 0, 0, 0, 0], [3, 3, 1, 0, 0, 0, 0, 0, 0, 0, 0],
         [4, 3, 2, 0, 0, 0, 0, 0, 0, 0, 0]] ∧
    (∀ r, r < 11 → ∀ c, c < 11 → ∀ p ∈ ((CrownyState.init st).board_.getD r []).getD c [],
      (p.type_ = .ENUM_RED → 8 ≤ r ∧ c ≤ 2) ∧ (p.type_ = .ENUM_BLUE → r ≤ 2 ∧ 8 ≤ c)) := by
  cases st <;> decide

/-! ## C20: failures and partial application -/

theorem RollDice_eq_inPlace (s : CrownyState) (o : Int) :
    RollDice s o = (RollDiceInPlace s o).toResult := by
  unfold RollDice RollDiceInPlace InPlace.toResult
  split
  · rfl
  · cases kChanceOutcomeValues[o.toNat]? with
    | none => rfl
    | some v =>
      cases h0 : v[0]? with
      | none => simp [h0]
      | some a =>
        cases h1 : v[1]? with
        | none => simp [h0, h1]
        | some b => simp [h0, h1]

theorem ApplyCheckerMove_eq_inPlace (s : CrownyState) (player : Int) (m : CheckerMove) :
    ApplyCheckerMove s player m = (ApplyCheckerMoveInPlace s player m).toResult := by
  simp only [ApplyCheckerMove, ApplyCheckerMoveInPlace, InPlace.toResult, bind, Except.bind]
  cases hsrc : stackAt s.board_ m.from_ with
  | error e => simp only []
  | ok src =>
    simp only []
    cases hlast : src.getLast? with
    | none => simp only []
    | some piece =>
      simp only []
      cases hd : GetDistance m.from_ m.to_ with
      | error e => simp only []
      | ok d =>
        simp only []
        cases hdice : markDieUsed s.dice_ d with
        | error e => simp only []
        | ok dice1 =>
          simp only []
          cases hdst : stackAt (setStack s.board_ m.from_ src.dropLast) m.to_ with
          | error e => simp only []
          | ok dst => simp only []

/-- The value-or-error function and the in-place function describe the same call. -/
theorem DoApplyAction_eq_inPlace (s : CrownyState) (a : Int) :
    DoApplyAction s a = (DoApplyActionInPlace s a).toResult := by
  unfold DoApplyAction DoApplyActionInPlace
  split
  · split
    · split
      · rfl
      · split
        · simp only [bind, Except.bind, RollDice_eq_inPlace]
          rcases RollDiceInPlace _ a with ⟨s1, _ | e⟩ <;> rfl
        · simp only [bind, Except.bind, RollDice_eq_inPlace]
          rcases RollDiceInPlace _ (a - kNumNonDoubleOutcomes) with ⟨s1, _ | e⟩ <;> rfl
    · split
      · rfl
      · simp only [bind, Except.bind, RollDice_eq_inPlace]
        rcases RollDiceInPlace s a with ⟨s1, _ | e⟩ <;> rfl
  · simp only [bind, Except.bind]
    cases hdec : SpielMoveToCheckerMoves s.cur_player_ a with
    | error e => rfl
    | ok moves =>
      obtain ⟨m0, m1, rfl⟩ := SpielMoveToCheckerMoves_two _ _ _ hdec
      simp only [List.getElem?_cons_zero, List.getElem?_cons_succ, ApplyCheckerMove_eq_inPlace]
      rcases ApplyCheckerMoveInPlace s s.cur_player_ m0 with ⟨s1, _ | e⟩
      · simp only [InPlace.toResult]
        rcases ApplyCheckerMoveInPlace s1 s1.cur_player_ m1 with ⟨s2, _ | e⟩ <;> rfl
      · rfl

/-- C20, refuted as stated.  `blueToMove` is a player node with dice 1 and 2.
The action 975 decodes to (0,8) -> (0,7) and (0,0) -> (0,0).  The first move is
applied; the second finds the stack of (0,0) empty, so the call fails, and
the object is left with the first move applied: a blue pawn on (0,7), one
pawn less on (0,8), and die 0 marked used (dice 7 and 2). -/
theorem C20_second_move_failure_keeps_first :
    IsChanceNode blueToMove = false ∧
    SpielMoveToCheckerMoves blueToMove.cur_player_ 975
      = .ok [⟨(0, 8), (0, 7)⟩, ⟨(0, 0), (0, 0)⟩] ∧
    stackAt blueToMove.board_ (0, 0) = .ok [] ∧
    DoApplyAction blueToMove 975 = .error .undefinedBehaviour ∧
    (DoApplyActionInPlace blueToMove 975).2 = some .undefinedBehaviour ∧
    blueToMove.dice_ = [1, 2] ∧ (DoApplyActionInPlace blueToMove 975).1.dice_ = [7, 2] ∧
    stackAt blueToMove.board_ (0, 7) = .ok [] ∧
    stackAt (DoApplyActionInPlace blueToMove 975).1.board_ (0, 7) = .ok [Pawn .ENUM_BLUE] ∧
    (DoApplyActionInPlace blueToMove 975).1.board_ ≠ blueToMove.board_ := by
  decide

/-- C20, amended.  For every player-node state and every action id: if the
id is outside the action space, or the source cell of the first decoded
component move holds no piece, then `DoApplyAction` fails and the object is
exactly as before the call (board, dice and every other field). -/
theorem C20_failure_before_first_write (s : CrownyState) (a : Int)
    (hplayer : IsChanceNode s = false)
    (hfail : (a < 0 ∨ a ≥ kNumDistinctActions) ∨
      ∃ m0 m1, SpielMoveToCheckerMoves s.cur_player_ a = .ok [m0, m1] ∧
        ∀ src, stackAt s.board_ m0.from_ = .ok src → src = []) :
    ∃ e, DoApplyAction s a = .error e ∧ DoApplyActionInPlace s a = (s, some e) := by
  have key : ∃ e, DoApplyActionInPlace s a = (s, some e) := by
    rcases hfail with hrange | ⟨m0, m1, hdec, hsrc⟩
    · refine ⟨.checkFailed, ?_⟩
      have hdec : SpielMoveToCheckerMoves s.cur_player_ a = .error .checkFailed := by
        unfold SpielMoveToCheckerMoves
        by_cases h0 : a ≥ 0
        · have h1 : ¬ a < kNumDistinctActions := by omega
          simp [h0, h1]
        · simp [h0]
      simp only [DoApplyActionInPlace, hplayer, hdec]
      simp
    · cases hst : stackAt s.board_ m0.from_ with
      | error e =>
        refine ⟨e, ?_⟩
        simp only [DoApplyActionInPlace, hplayer, hdec, List.getElem?_cons_zero,
          ApplyCheckerMoveInPlace, hst]
        simp
      | ok src =>
        have hnil := hsrc src hst
        subst hnil
        refine ⟨.undefinedBehaviour, ?_⟩
        simp only [DoApplyActionInPlace, hplayer, hdec, List.getElem?_cons_zero,
          ApplyCheckerMoveInPlace, hst, List.getLast?_nil]
        simp
  obtain ⟨e, he⟩ := key
  refine ⟨e, ?_, he⟩
  rw [DoApplyAction_eq_inPlace, he]
  rfl

/-- Witness for C20: the id 1352 at the player node `blueToMove`. -/
theorem C20_failure_before_first_write_witness :
    ∃ e, DoApplyAction blueToMove 1352 = .error e ∧
      DoApplyActionInPlace blueToMove 1352 = (blueToMove, some e) :=
  C20_failure_before_first_write blueToMove 1352 (by decide) (Or.inl (by decide))

/-! ## C21: marking a die -/

/-- C21, refuted as stated.  Red to move with dice 1 and 2 moves the top
piece of (10,0) to (7,0), a distance of 3 that no die stores.  The marking
loop ends without an error and `ApplyCheckerMove` succeeds: the piece is
moved and the dice are still 1 and 2. -/
theorem C21_no_error_without_matching_die :
    redToMove.dice_ = [1, 2] ∧ GetDistance (10, 0) (7, 0) = .ok 3 ∧
    markDieUsed [1, 2] 3 = .ok [1, 2] ∧
    (ApplyCheckerMove redToMove kXPlayerId ⟨(10, 0), (7, 0)⟩).map
        (fun s1 => (s1.dice_, (stackAt s1.board_ (7, 0)).map List.length))
      = .ok ([1, 2], .ok 1) := by
  decide

/-- C21, amended.  In a state with an 11 x 11 board and two dice `[a, b]`,
for a move from a non-empty source stack to an on-board cell at distance
`d`: when no die stores `d`, `ApplyCheckerMove` succeeds without any error
and both dice keep their stored values; when `d` is in 1..6 and some (hence
unused) die stores `d`, exactly the first such die is flagged used by adding
6 and the other die is unchanged. -/
theorem C21_die_marking (s : CrownyState) (player : Int) (m : CheckerMove)
    (a b d : Int) (src : List Piece)
    (hshape : boardShape s.board_) (hto : onBoard m.to_)
    (hsrc : stackAt s.board_ m.from_ = .ok src) (hne : src ≠ [])
    (hdice : s.dice_ = [a, b]) (hd : GetDistance m.from_ m.to_ = .ok d) :
    ∃ s1, ApplyCheckerMove s player m = .ok s1 ∧
      (a ≠ d → b ≠ d → s1.dice_ = [a, b]) ∧
      (1 ≤ d → d ≤ 6 → a = d → s1.dice_ = [a + 6, b]) ∧
      (1 ≤ d → d ≤ 6 → a ≠ d → b = d → s1.dice_ = [a, b + 6]) := by
  obtain ⟨dst, hdst⟩ := stackAt_of_onBoard s.board_ m.to_ hshape hto
  obtain ⟨piece, dst1, -, -, happ⟩ :=
    ApplyCheckerMove_two_dice s player m a b d src dst hsrc hne hdst hdice hd
  refine ⟨_, happ, ?_, ?_, ?_⟩
  · intro ha hb
    simp [ha, hb]
  · intro _ _ ha
    simp [ha]
  · intro _ _ ha hb
    simp [ha, hb]

/-- Witness for C21: red to move with dice 1 and 2, the top piece of (10,1)
moves two rows up; die 1 is the first die that stores 2. -/
theorem C21_die_marking_witness :
    ∃ s1, ApplyCheckerMove redToMove kXPlayerId ⟨(10, 1), (8, 1)⟩ = .ok s1 ∧
      ((1 : Int) ≠ 2 → (2 : Int) ≠ 2 → s1.dice_ = [1, 2]) ∧
      ((1 : Int) ≤ 2 → (2 : Int) ≤ 6 → (1 : Int) = 2 → s1.dice_ = [1 + 6, 2]) ∧
      ((1 : Int) ≤ 2 → (2 : Int) ≤ 6 → (1 : Int) ≠ 2 → (2 : Int) = 2 → s1.dice_ = [1, 2 + 6]) :=
  C21_die_marking redToMove kXPlayerId ⟨(10, 1), (8, 1)⟩ 1 2 2
    [Pawn .ENUM_RED, Pawn .ENUM_RED, Archer .ENUM_RED]
    (by decide) (by decide) (by decide) (by decide) (by decide) (by decide)

/-! ## C22: the board accessor -/

/-- C22, evaluated at failing inputs.  `board(pos)` checks only that both
coordinates are at least 0.  For the cells (11,0) and (0,11) no check fails;
the accessor indexes `board_` past its 11 rows resp. columns, which has no
defined result.  A negative coordinate is rejected by the check, and an
on-board cell returns its stack. -/
theorem C22_board_has_no_upper_check :
    board redToMove (11, 0) = .error .undefinedBehaviour ∧
    board redToMove (0, 11) = .error .undefinedBehaviour ∧
    board redToMove (11, 0) ≠ .error .checkFailed ∧
    board redToMove (-1, 0) = .error .checkFailed ∧
    board redToMove (0, -1) = .error .checkFailed ∧
    board redToMove (8, 0) = .ok [Pawn .ENUM_RED, Pawn .ENUM_RED] := by
  decide

/-! ## C23: existence of a legal action -/

/-- C23, evaluated at a failing input.  `blueToMove` (after the opening roll
15) is neither a chance node nor terminal; `LegalActions` reaches
`LegalCheckerMoves`, which ends without returning a value, so it produces no
action list at all, neither a non-empty one nor the single pass-pass
action. -/
theorem C23_no_legal_action_list :
    IsChanceNode blueToMove = false ∧ IsTerminal blueToMove = false ∧
    LegalCheckerMoves blueToMove blueToMove.cur_player_ = .error .undefinedBehaviour ∧
    LegalActions blueToMove = .error .undefinedBehaviour := by
  decide

/-! ## C24: the move search restores the state -/

/-- C25, evaluated on every state.  `MaxUtility` is 2 under full scoring, but
`Returns()` is `{1, -1}`, `{-1, 1}` or `{0, 0}` in every state whatever the
scoring type: under full scoring `util_mag` is set to 1 as well, so no
terminal state has a return of magnitude larger than 1. -/
theorem C25_full_scoring_magnitude_is_one (s : CrownyState) :
    MaxUtility .kFullScoring = 2 ∧ MaxUtility .kWinLossScoring = 1 ∧
    (Returns s = [1, -1] ∨ Returns s = [-1, 1] ∨ Returns s = [0, 0]) ∧
    Returns { CrownyState.init .kFullScoring with scores_ := (15, 0) } = [1, -1] := by
  have hmag : ∀ st : ScoringType,
      (match st with
        | .kWinLossScoring => (1 : Int)
        | .kFullScoring => 1) = 1 := by
    intro st
    cases st <;> rfl
  refine ⟨rfl, rfl, ?_, ?_⟩
  · by_cases hx : s.scores_.1 = 15
    · left
      simp [Returns, hx, hmag, kNumPlayers, kXPlayerId, kOPlayerId]
    · by_cases ho : s.scores_.2 = 15
      · right
        left
        simp [Returns, hx, ho, hmag, kNumPlayers, kXPlayerId, kOPlayerId]
      · right
        right
        simp [Returns, hx, ho]
  · simp [Returns, hmag, kNumPlayers, kXPlayerId, kOPlayerId]

/-! ## C26: usable dice after a double roll -/

/-- C26, refuted as stated.  At the chance node `awaitingRoll` the double
outcome 17 (dice 3 and 3) and the non-double outcome 0 (dice 1 and 2) both
leave exactly two usable dice in the dice state: the count after the double
is not larger. -/
theorem C26_double_roll_holds_two_dice :
    isDoubleOutcome 17 = true ∧ isDoubleOutcome 0 = false ∧
    (DoApplyAction awaitingRoll 17).map (fun s1 => (s1.dice_, usableCount s1)) = .ok ([3, 3], 2) ∧
    (DoApplyAction awaitingRoll 0).map (fun s1 => (s1.dice_, usableCount s1)) = .ok ([1, 2], 2) := by
  decide

/-- C26, amended.  At every chance node with `turns_ != -1` and empty dice,
applying any normal-roll outcome `o` in `[0, 21)`, double or not, leaves
exactly two dice in the dice state, both usable; the two faces are equal
exactly for the double outcomes (`o >= 15`). -/
theorem C26_two_usable_dice_after_any_roll (s : CrownyState) (o : Int)
    (hch : IsChanceNode s = true) (ht : s.turns_ ≠ -1) (hd : s.dice_ = [])
    (h0 : 0 ≤ o) (h21 : o < 21) :
    ∃ s1 a b, DoApplyAction s o = .ok s1 ∧ s1.dice_ = [a, b] ∧ usableCount s1 = 2 ∧
      (a = b ↔ 15 ≤ o) := by
  obtain ⟨a, b, hv, ha, hab, hb, hne, heq⟩ := chanceValues_entry o h0 h21
  refine ⟨_, a, b, DoApplyAction_normal_roll s o a b hch ht hd h0 hv, rfl, ?_, ?_⟩
  · have ua : UsableDiceOutcome a = true := by
      simp only [UsableDiceOutcome, decide_eq_true_eq]
      omega
    have ub : UsableDiceOutcome b = true := by
      simp only [UsableDiceOutcome, decide_eq_true_eq]
      omega
    simp [usableCount, List.filter, ua, ub]
  · constructor
    · intro h
      by_contra hc
      exact hne (by omega) h
    · exact heq

/-- Witness for C26: the chance node `awaitingRoll` and the double 3 (outcome 17). -/
theorem C26_two_usable_dice_after_any_roll_witness :
    ∃ s1 a b, DoApplyAction awaitingRoll 17 = .ok s1 ∧ s1.dice_ = [a, b] ∧ usableCount s1 = 2 ∧
      (a = b ↔ (15 : Int) ≤ 17) :=
  C26_two_usable_dice_after_any_roll awaitingRoll 17 (by decide) (by decide) (by decide)
    (by decide) (by decide)

/-! ## C27: the decoder exchanges from and to -/

/-- C27.  For every pair of checker moves with on-board cells for which
`CheckerMovesToSpielMove` returns an id, `SpielMoveToCheckerMoves` of that id
(for any player argument) returns the two moves with from and to exchanged in
each; it returns the encoded pair itself iff both moves have from == to. -/
theorem C27_decode_exchanges_from_and_to (s : CrownyState) (m0 m1 : CheckerMove) (a player : Int)
    (h0f : onBoard m0.from_) (h0t : onBoard m0.to_) (h1f : onBoard m1.from_)
    (h1t : onBoard m1.to_) (h : CheckerMovesToSpielMove s [m0, m1] = .ok a) :
    SpielMoveToCheckerMoves player a = .ok [⟨m0.to_, m0.from_⟩, ⟨m1.to_, m1.from_⟩] ∧
    (SpielMoveToCheckerMoves player a = .ok [m0, m1] ↔
      (m0.from_ = m0.to_ ∧ m1.from_ = m1.to_)) := by
  obtain ⟨ha, hge, hlt⟩ := CheckerMovesToSpielMove_onBoard s m0 m1 a h0f h0t h1f h1t h
  have key : SpielMoveToCheckerMoves player a
      = .ok [⟨m0.to_, m0.from_⟩, ⟨m1.to_, m1.from_⟩] := by
    rw [SpielMoveToCheckerMoves_eq player a hge hlt]
    obtain ⟨⟨f0r, f0c⟩, ⟨t0r, t0c⟩⟩ := m0
    obtain ⟨⟨f1r, f1c⟩, ⟨t1r, t1c⟩⟩ := m1
    simp only [onBoard] at h0f h0t h1f h1t
    simp only at ha
    have d0 : a % 121 = f0r * 11 + f0c := by omega
    have d1 : a / 121 % 121 = t0r * 11 + t0c := by omega
    have d2 : a / 121 / 121 % 121 = f1r * 11 + f1c := by omega
    have d3 : a / 121 / 121 / 121 % 121 = t1r * 11 + t1c := by omega
    rw [d0, d1, d2, d3]
    have c0 : (f0r * 11 + f0c) / 11 = f0r ∧ (f0r * 11 + f0c) % 11 = f0c := by
      constructor <;> omega
    have c1 : (t0r * 11 + t0c) / 11 = t0r ∧ (t0r * 11 + t0c) % 11 = t0c := by
      constructor <;> omega
    have c2 : (f1r * 11 + f1c) / 11 = f1r ∧ (f1r * 11 + f1c) % 11 = f1c := by
      constructor <;> omega
    have c3 : (t1r * 11 + t1c) / 11 = t1r ∧ (t1r * 11 + t1c) % 11 = t1c := by
      constructor <;> omega
    rw [c0.1, c0.2, c1.1, c1.2, c2.1, c2.2, c3.1, c3.2]
  refine ⟨key, ?_⟩
  rw [key]
  obtain ⟨f0, t0⟩ := m0
  obtain ⟨f1, t1⟩ := m1
  simp only [Except.ok.injEq, List.cons.injEq, CheckerMove.mk.injEq, and_true]
  constructor
  · rintro ⟨⟨h1, -⟩, ⟨h2, -⟩⟩
    exact ⟨h1.symm, h2.symm⟩
  · rintro ⟨h1, h2⟩
    exact ⟨⟨h1.symm, h1⟩, ⟨h2.symm, h2⟩⟩

/-- Witness for C27: blue to move with dice 1 and 2 and the pair
(0,8) -> (0,7), (0,0) -> (0,0), whose id is 855. -/
theorem C27_decode_exchanges_from_and_to_witness :
    SpielMoveToCheckerMoves kOPlayerId 855 = .ok [⟨(0, 7), (0, 8)⟩, ⟨(0, 0), (0, 0)⟩] ∧
    (SpielMoveToCheckerMoves kOPlayerId 855 = .ok [⟨(0, 8), (0, 7)⟩, ⟨(0, 0), (0, 0)⟩] ↔
      (((0, 8) : Pos) = (0, 7) ∧ ((0, 0) : Pos) = (0, 0))) :=
  C27_decode_exchanges_from_and_to blueToMove ⟨(0, 8), (0, 7)⟩ ⟨(0, 0), (0, 0)⟩ 855 kOPlayerId
    (by decide) (by decide) (by decide) (by decide) (by decide)

/-! ## C28: what the declared action space decodes to -/

/-- C28.  `kNumDistinctActions` is 1352, and for every action id `a` in
`[0, 1352)` the decoder returns a first move and the self-loop
(0,0) -> (0,0) as second move; the from cell of the first move has the linear
index `a / 121`, which is at most 11 (a cell of row 0, or the cell (1,0)),
and its to cell has the linear index `a % 121`. -/
theorem C28_decoded_moves_of_action_space (player a : Int) (h0 : 0 ≤ a)
    (h1 : a < kNumDistinctActions) :
    kNumDistinctActions = 1352 ∧
    ∃ m0, SpielMoveToCheckerMoves player a = .ok [m0, ⟨(0, 0), (0, 0)⟩] ∧
      m0.from_.1 * 11 + m0.from_.2 = a / 121 ∧ a / 121 ≤ 11 ∧
      (m0.from_.1 = 0 ∨ m0.from_ = (1, 0)) ∧
      m0.to_.1 * 11 + m0.to_.2 = a % 121 ∧ onBoard m0.from_ ∧ onBoard m0.to_ := by
  have hk : kNumDistinctActions = 1352 := rfl
  rw [hk] at h1
  refine ⟨rfl, ⟨((a / 121 % 121) / 11, (a / 121 % 121) % 11), ((a % 121) / 11, (a % 121) % 11)⟩,
    ?_, ?_, ?_, ?_, ?_, ?_, ?_⟩
  · rw [SpielMoveToCheckerMoves_eq player a h0 (by rw [hk]; exact h1)]
    have z1 : a / 121 / 121 / 121 % 121 = 0 := by omega
    have z2 : a / 121 / 121 % 121 = 0 := by omega
    rw [z1, z2]
    rfl
  · show (a / 121 % 121) / 11 * 11 + (a / 121 % 121) % 11 = a / 121
    omega
  · omega
  · show (a / 121 % 121) / 11 = 0 ∨ _
    by_cases hlt : a / 121 < 11
    · left
      omega
    · right
      have e : a / 121 = 11 := by omega
      simp [e]
  · show (a % 121) / 11 * 11 + (a % 121) % 11 = a % 121
    omega
  · refine ⟨?_, ?_, ?_, ?_⟩ <;> simp only <;> omega
  · refine ⟨?_, ?_, ?_, ?_⟩ <;> simp only <;> omega

/-- Witness for C28: the action id 975. -/
theorem C28_decoded_moves_of_action_space_witness :
    kNumDistinctActions = 1352 ∧
    ∃ m0, SpielMoveToCheckerMoves kOPlayerId 975 = .ok [m0, ⟨(0, 0), (0, 0)⟩] ∧
      m0.from_.1 * 11 + m0.from_.2 = 975 / 121 ∧ (975 : Int) / 121 ≤ 11 ∧
      (m0.from_.1 = 0 ∨ m0.from_ = (1, 0)) ∧
      m0.to_.1 * 11 + m0.to_.2 = 975 % 121 ∧ onBoard m0.from_ ∧ onBoard m0.to_ :=
  C28_decoded_moves_of_action_space kOPlayerId 975 (by decide) (by decide)

/-! ## C29: the board half of apply / undo -/

/-- C29.  In every state with an 11 x 11 board and two dice, for every
checker move whose source cell holds a non-empty stack `src` and whose
destination is on the board (from and to equal or different, any distance,
any player argument): `ApplyCheckerMove` succeeds and `UndoCheckerMove` on
its result succeeds and gives back the board of the state, stack by stack.
After `ApplyCheckerMove` alone every cell other than from and to holds the
same stack; if from != to the source stack is `src` without its top piece and
the destination stack is the old one with that piece on top; if from == to
the board is unchanged. -/
theorem C29_board_half_exact (s : CrownyState) (player : Int) (m : CheckerMove)
    (a b : Int) (src : List Piece)
    (hshape : boardShape s.board_) (hto : onBoard m.to_)
    (hsrc : stackAt s.board_ m.from_ = .ok src) (hne : src ≠ [])
    (hdice : s.dice_ = [a, b]) :
    ∃ s1 s2 piece dst, ApplyCheckerMove s player m = .ok s1 ∧
      UndoCheckerMove s1 player m = .ok s2 ∧ s2.board_ = s.board_ ∧
      src.getLast? = some piece ∧ stackAt s.board_ m.to_ = .ok dst ∧
      (∀ q, q ≠ m.from_ → q ≠ m.to_ → stackAt s1.board_ q = stackAt s.board_ q) ∧
      (m.from_ ≠ m.to_ →
        stackAt s1.board_ m.from_ = .ok src.dropLast ∧
        stackAt s1.board_ m.to_ = .ok (dst ++ [piece])) ∧
      (m.from_ = m.to_ → s1.board_ = s.board_) := by
  have hfrom : onBoard m.from_ := onBoard_of_stackAt s.board_ m.from_ src hshape hsrc
  obtain ⟨dst, hdst⟩ := stackAt_of_onBoard s.board_ m.to_ hshape hto
  have hd := GetDistance_onBoard m.from_ m.to_ hfrom hto
  obtain ⟨piece, dst1, hlast, hdst1, happ⟩ :=
    ApplyCheckerMove_two_dice s player m a b _ src dst hsrc hne hdst hdice hd
  obtain ⟨x, y, hxy⟩ : ∃ x y,
      (if a = max |m.to_.2 - m.from_.2| |m.to_.1 - m.from_.1| then [a + 6, b]
        else if b = max |m.to_.2 - m.from_.2| |m.to_.1 - m.from_.1| then [a, b + 6]
        else [a, b]) = [x, y] := by
    split_ifs
    · exact ⟨_, _, rfl⟩
    · exact ⟨_, _, rfl⟩
    · exact ⟨_, _, rfl⟩
  rw [hxy] at happ
  have hundo := UndoCheckerMove_after_apply s player m x y _ src dst1 piece hsrc hlast hdst1 hd
  refine ⟨_, _, piece, dst, happ, hundo, rfl, hlast, hdst, ?_, ?_, ?_⟩
  · intro q hq1 hq2
    show stackAt (setStack (setStack s.board_ m.from_ src.dropLast) m.to_ (dst1 ++ [piece])) q
      = stackAt s.board_ q
    rw [stackAt_setStack_ne _ m.to_ q _ hto.1 hto.2.2.1 (Ne.symm hq2),
      stackAt_setStack_ne _ m.from_ q _ hfrom.1 hfrom.2.2.1 (Ne.symm hq1)]
  · intro hft
    have hd1 : stackAt (setStack s.board_ m.from_ src.dropLast) m.to_ = .ok dst := by
      rw [stackAt_setStack_ne _ m.from_ m.to_ _ hfrom.1 hfrom.2.2.1 hft, hdst]
    have hdd : dst1 = dst := by
      rw [hdst1] at hd1
      cases hd1
      rfl
    subst hdd
    constructor
    · show stackAt (setStack (setStack s.board_ m.from_ src.dropLast) m.to_ (dst1 ++ [piece]))
        m.from_ = .ok src.dropLast
      rw [stackAt_setStack_ne _ m.to_ m.from_ _ hto.1 hto.2.2.1 (Ne.symm hft)]
      exact stackAt_setStack_same _ _ src _ hsrc
    · exact stackAt_setStack_same _ _ dst1 _ hdst1
  · intro hft
    show setStack (setStack s.board_ m.from_ src.dropLast) m.to_ (dst1 ++ [piece]) = s.board_
    have hself : stackAt (setStack s.board_ m.from_ src.dropLast) m.from_ = .ok src.dropLast :=
      stackAt_setStack_same _ _ src _ hsrc
    rw [← hft] at hdst1 ⊢
    rw [hself] at hdst1
    cases hdst1
    rw [setStack_setStack, List.dropLast_append_getLast? piece (by simp [hlast])]
    exact setStack_self _ _ _ hsrc

/-- Witness for C29: red to move with dice 1 and 2 moves the top piece of
(10,0) five columns to the right, a distance no die stores. -/
theorem C29_board_half_exact_witness :
    ∃ s1 s2 piece dst, ApplyCheckerMove redToMove kOPlayerId ⟨(10, 0), (10, 5)⟩ = .ok s1 ∧
      UndoCheckerMove s1 kOPlayerId ⟨(10, 0), (10, 5)⟩ = .ok s2 ∧ s2.board_ = redToMove.board_ ∧
      [Pawn .ENUM_RED, Pawn .ENUM_RED, Archer .ENUM_RED, King .ENUM_RED].getLast? = some piece ∧
      stackAt redToMove.board_ (10, 5) = .ok dst ∧
      (∀ q, q ≠ (10, 0) → q ≠ (10, 5) → stackAt s1.board_ q = stackAt redToMove.board_ q) ∧
      (((10, 0) : Pos) ≠ (10, 5) →
        stackAt s1.board_ (10, 0)
          = .ok [Pawn .ENUM_RED, Pawn .ENUM_RED, Archer .ENUM_RED, King .ENUM_RED].dropLast ∧
        stackAt s1.board_ (10, 5) = .ok (dst ++ [piece])) ∧
      (((10, 0) : Pos) = (10, 5) → s1.board_ = redToMove.board_) :=
  C29_board_half_exact redToMove kOPlayerId ⟨(10, 0), (10, 5)⟩ 1 2
    [Pawn .ENUM_RED, Pawn .ENUM_RED, Archer .ENUM_RED, King .ENUM_RED]
    (by decide) (by decide) (by decide) (by decide) (by decide)

/-! ## C30: the dice half of apply / undo -/

/-- C30.  In every state with an 11 x 11 board and two dice `[a, b]`, for
every move from a non-empty source stack to an on-board cell whose distance
`d` is stored by some die (for `d` in 1..6: by an unused die), unless
`a == d + 6` and `b == d`: `ApplyCheckerMove` followed by `UndoCheckerMove`
succeeds and leaves the dice `[a, b]`, the same stored values in the same
positions.  The ranges 1..12 of the dice and 1..6 of the distance are not
needed for this. -/
theorem C30_dice_half_exact (s : CrownyState) (player : Int) (m : CheckerMove)
    (a b d : Int) (src : List Piece)
    (hshape : boardShape s.board_) (hto : onBoard m.to_)
    (hsrc : stackAt s.board_ m.from_ = .ok src) (hne : src ≠ [])
    (hdice : s.dice_ = [a, b]) (hd : GetDistance m.from_ m.to_ = .ok d)
    (hstored : a = d ∨ b = d) (hexc : ¬ (a = d + 6 ∧ b = d)) :
    ∃ s1 s2, ApplyCheckerMove s player m = .ok s1 ∧ UndoCheckerMove s1 player m = .ok s2 ∧
      s2.dice_ = [a, b] ∧ s2.dice_ = s.dice_ := by
  obtain ⟨dst, hdst⟩ := stackAt_of_onBoard s.board_ m.to_ hshape hto
  obtain ⟨piece, dst1, hlast, hdst1, happ⟩ :=
    ApplyCheckerMove_two_dice s player m a b d src dst hsrc hne hdst hdice hd
  by_cases hax : a = d
  · rw [if_pos hax] at happ
    have hundo := UndoCheckerMove_after_apply s player m (a + 6) b d src dst1 piece hsrc hlast
      hdst1 hd
    rw [if_pos (by omega)] at hundo
    refine ⟨_, _, happ, hundo, ?_, ?_⟩
    · show [a + 6 - 6, b] = [a, b]
      simp
    · show [a + 6 - 6, b] = s.dice_
      simp [hdice]
  · have hbx : b = d := by
      rcases hstored with h | h
      · exact absurd h hax
      · exact h
    rw [if_neg hax, if_pos hbx] at happ
    have hundo := UndoCheckerMove_after_apply s player m a (b + 6) d src dst1 piece hsrc hlast
      hdst1 hd
    have hne6 : ¬ a = d + 6 := fun h => hexc ⟨h, hbx⟩
    rw [if_neg hne6, if_pos (by omega)] at hundo
    refine ⟨_, _, happ, hundo, ?_, ?_⟩
    · show [a, b + 6 - 6] = [a, b]
      simp
    · show [a, b + 6 - 6] = s.dice_
      simp [hdice]

/-- Witness for C30: red to move with dice 1 and 2, the top piece of (10,1)
moves two rows up (the distance 2 is stored by die 1). -/
theorem C30_dice_half_exact_witness :
    ∃ s1 s2, ApplyCheckerMove redToMove kXPlayerId ⟨(10, 1), (8, 1)⟩ = .ok s1 ∧
      UndoCheckerMove s1 kXPlayerId ⟨(10, 1), (8, 1)⟩ = .ok s2 ∧
      s2.dice_ = [1, 2] ∧ s2.dice_ = redToMove.dice_ :=
  C30_dice_half_exact redToMove kXPlayerId ⟨(10, 1), (8, 1)⟩ 1 2 2
    [Pawn .ENUM_RED, Pawn .ENUM_RED, Archer .ENUM_RED]
    (by decide) (by decide) (by decide) (by decide) (by decide) (by decide) (by decide)
    (by decide)

/-! ## C31: no play ever scores -/

/-- C31.  In every state reached from the constructed state by successful
`DoApplyAction` calls (chance outcomes and move actions) both scores are 0,
`IsTerminal()` is false and `Returns()` is `{0, 0}`. -/
theorem C31_no_play_scores (st : ScoringType) (s : CrownyState) (h : Reachable st s) :
    s.scores_ = (0, 0) ∧ IsTerminal s = false ∧ Returns s = [0, 0] := by
  have hs : s.scores_ = (0, 0) := by
    induction h with
    | init => rfl
    | step s0 s1 a _ hstep ih =>
      exact (DoApplyAction_conserves s0 s1 a .ENUM_RED hstep).2.trans ih
  refine ⟨hs, ?_, ?_⟩
  · simp [IsTerminal, hs, NumCheckersPerPlayer, kNumCheckersPerPlayer]
  · simp [Returns, hs]

/-- Witness for C31: the state after the opening roll 15 and the move action 968. -/
theorem C31_no_play_scores_witness :
    ∃ s, DoApplyAction blueToMove 968 = .ok s ∧
      s.scores_ = (0, 0) ∧ IsTerminal s = false ∧ Returns s = [0, 0] := by
  cases h : DoApplyAction blueToMove 968 with
  | error e =>
    have hne : DoApplyAction blueToMove 968 ≠ .error e := by
      cases e <;> decide
    exact absurd h hne
  | ok s =>
    exact ⟨s, rfl, C31_no_play_scores .kWinLossScoring s
      (Reachable.step _ _ 968 (Reachable.step _ _ 15 Reachable.init blueToMove_eq) h)⟩

/-! ## C32: frame of a move action -/

/-- C32.  For every player-node state and every move action that
`DoApplyAction` applies successfully, `cur_player_`, `turns_`, `x_turns_`,
`o_turns_`, `double_turn_`, the scores (and `scoring_type_`, `bar_`) are
unchanged, the number of dice is unchanged and each die is stored as before
or with one or two used-marks of 6 added, and `prev_player_` is set to
`cur_player_`; only the board, the dice marks and `prev_player_` can
change. -/
theorem C32_move_action_frame (s s1 : CrownyState) (a : Int)
    (hplayer : IsChanceNode s = false) (h : DoApplyAction s a = .ok s1) :
    s1 = { s with board_ := s1.board_, dice_ := s1.dice_, prev_player_ := s.cur_player_ } ∧
    s1.cur_player_ = s.cur_player_ ∧ s1.turns_ = s.turns_ ∧ s1.x_turns_ = s.x_turns_ ∧
    s1.o_turns_ = s.o_turns_ ∧ s1.double_turn_ = s.double_turn_ ∧ s1.scores_ = s.scores_ ∧
    s1.dice_.length = s.dice_.length ∧ List.Forall₂ dieMarked s.dice_ s1.dice_ ∧
    s1.prev_player_ = s.cur_player_ := by
  obtain ⟨m0, m1, t1, t2, -, h1, h2, rfl⟩ := DoApplyAction_move_inv s s1 a hplayer h
  obtain ⟨e1, f1⟩ := ApplyCheckerMove_frame s t1 _ m0 h1
  obtain ⟨e2, f2⟩ := ApplyCheckerMove_frame t1 t2 _ m1 h2
  have hdice := dieMarked_two_steps _ _ _ f1 f2
  have hstate : t2 = { s with dice_ := t2.dice_, board_ := t2.board_ } := by
    rw [e2]
    rw [e1]
  have hfield : ({ t2 with prev_player_ := t2.cur_player_ } : CrownyState)
      = { s with board_ := t2.board_, dice_ := t2.dice_, prev_player_ := s.cur_player_ } := by
    rw [hstate]
  refine ⟨hfield, ?_, ?_, ?_, ?_, ?_, ?_, ?_, hdice, ?_⟩
  · rw [hfield]
  · rw [hfield]
  · rw [hfield]
  · rw [hfield]
  · rw [hfield]
  · rw [hfield]
  · exact hdice.length_eq.symm
  · rw [hfield]

/-- Witness for C32: the player node `blueToMove` and the move action 968. -/
theorem C32_move_action_frame_witness :
    ∃ s1, DoApplyAction blueToMove 968 = .ok s1 ∧
      s1 = { blueToMove with board_ := s1.board_, dice_ := s1.dice_,
                             prev_player_ := blueToMove.cur_player_ } ∧
      s1.cur_player_ = blueToMove.cur_player_ ∧ s1.turns_ = blueToMove.turns_ ∧
      s1.x_turns_ = blueToMove.x_turns_ ∧ s1.o_turns_ = blueToMove.o_turns_ ∧
      s1.double_turn_ = blueToMove.double_turn_ ∧ s1.scores_ = blueToMove.scores_ ∧
      s1.dice_.length = blueToMove.dice_.length ∧
      List.Forall₂ dieMarked blueToMove.dice_ s1.dice_ ∧
      s1.prev_player_ = blueToMove.cur_player_ := by
  cases h : DoApplyAction blueToMove 968 with
  | error e =>
    have hne : DoApplyAction blueToMove 968 ≠ .error e := by
      cases e <;> decide
    exact absurd h hne
  | ok s1 => exact ⟨s1, rfl, C32_move_action_frame blueToMove s1 968 (by decide) h⟩

/-! ## C33: the action id and the dice -/

/-- C33.  For any two states that each hold two dice with stored values in
1..12 and any list of checker moves, `CheckerMovesToSpielMove` gives the same
result in both states, the same id or the same failure.  An id it returns for
a pair of moves lies in the action space and agrees modulo `2^32` (the width
of the `int` it is computed in) with the packed value
`d3 * 121^3 + d2 * 121^2 + d1 * 121 + d0` of the four digits, with no offset
for the order of the dice; for on-board cells it is that packed value. -/
theorem C33_action_id_independent_of_dice (s t : CrownyState) (moves : List CheckerMove)
    (a b c d : Int) (hs : s.dice_ = [a, b]) (ht : t.dice_ = [c, d])
    (ha : 1 ≤ a ∧ a ≤ 12) (hb : 1 ≤ b ∧ b ≤ 12) (hc : 1 ≤ c ∧ c ≤ 12) (hd : 1 ≤ d ∧ d ≤ 12) :
    CheckerMovesToSpielMove s moves = CheckerMovesToSpielMove t moves ∧
    ∀ m0 m1 id, moves = [m0, m1] → CheckerMovesToSpielMove s moves = .ok id →
      0 ≤ id ∧ id < kNumDistinctActions ∧
      id % 4294967296
        = ((m1.to_.1 * 11 + m1.to_.2) * 121 * 121 * 121
            + (m1.from_.1 * 11 + m1.from_.2) * 121 * 121
            + (m0.to_.1 * 11 + m0.to_.2) * 121 + (m0.from_.1 * 11 + m0.from_.2)) % 4294967296 ∧
      (onBoard m0.from_ → onBoard m0.to_ → onBoard m1.from_ → onBoard m1.to_ →
        id = (m1.to_.1 * 11 + m1.to_.2) * 121 * 121 * 121
              + (m1.from_.1 * 11 + m1.from_.2) * 121 * 121
              + (m0.to_.1 * 11 + m0.to_.2) * 121 + (m0.from_.1 * 11 + m0.from_.2)) := by
  obtain ⟨⟨v0, hv0⟩, ⟨v1, hv1⟩⟩ := DiceValue_two s a b hs ha hb
  obtain ⟨⟨w0, hw0⟩, ⟨w1, hw1⟩⟩ := DiceValue_two t c d ht hc hd
  constructor
  · match moves with
    | [] => rfl
    | [_] => rfl
    | [m0, m1] =>
      simp only [CheckerMovesToSpielMove, hv0, hv1, hw0, hw1, bind, Except.bind]
    | _ :: _ :: _ :: _ => rfl
  · rintro m0 m1 id rfl hid
    obtain ⟨n0, n1, hl, hval, hge, hlt⟩ := CheckerMovesToSpielMove_ok s [m0, m1] id hid
    simp only [List.cons.injEq, and_true] at hl
    obtain ⟨rfl, rfl⟩ := hl
    exact ⟨hge, hlt, hval, fun h0f h0t h1f h1t =>
      (CheckerMovesToSpielMove_onBoard s m0 m1 id h0f h0t h1f h1t hid).1⟩

/-- Witness for C33: the states after the opening rolls 0 (dice 1, 2) and 14
(dice 5, 6), with the pair (0,0) -> (0,0), (0,0) -> (0,3474161), whose packed
value 3474161 * 121^3 exceeds the `int` range and comes out as the id 153 in
both states. -/
theorem C33_action_id_independent_of_dice_witness :
    CheckerMovesToSpielMove redToMove [⟨(0, 0), (0, 0)⟩, ⟨(0, 0), (0, 3474161)⟩] = .ok 153 ∧
    CheckerMovesToSpielMove redToMove [⟨(0, 0), (0, 0)⟩, ⟨(0, 0), (0, 3474161)⟩]
      = CheckerMovesToSpielMove redFiveSix [⟨(0, 0), (0, 0)⟩, ⟨(0, 0), (0, 3474161)⟩] :=
  ⟨by decide,
   (C33_action_id_independent_of_dice redToMove redFiveSix
    [⟨(0, 0), (0, 0)⟩, ⟨(0, 0), (0, 3474161)⟩] 1 2 5 6 rfl rfl (by decide) (by decide)
    (by decide) (by decide)).1⟩

/-! ## C34: symmetry of the initial position -/

/-- C34.  On the initial board, for every cell `(r, c)` the stack at
`(10 - r, 10 - c)` is the stack at `(r, c)` with every piece replaced, position
by position from bottom to top, by the piece of the opposite side; so the two
stacks have the same height, and both sides start with the same number of
pieces. -/
theorem C34_initial_position_symmetric (st : ScoringType) :
    boardShape (CrownyState.init st).board_ ∧
    (∀ r, r < 11 → ∀ c, c < 11 →
      ((CrownyState.init st).board_.getD (10 - r) []).getD (10 - c) []
        = (((CrownyState.init st).board_.getD r []).getD c []).map
            (fun p => Piece.mk (oppositeSide p.type_)) ∧
      (((CrownyState.init st).board_.getD (10 - r) []).getD (10 - c) []).length
        = (((CrownyState.init st).board_.getD r []).getD c []).length) ∧
    piecesOnBoard (CrownyState.init st).board_ .ENUM_RED
      = piecesOnBoard (CrownyState.init st).board_ .ENUM_BLUE := by
  cases st <;> decide

end Crowny
